import Mathlib

/-!
Shallow embedding of the halimath/jose Go library (JWS/JWK/JWT) in Lean 4,
used to settle the specification claims about the library.

Modelling conventions:
* Go `[]byte` values are `List Nat`, with each element intended to lie below
  256; where a theorem needs the bound it carries it as a hypothesis, which is
  the `[]byte` value-range invariant.
* Go `string` values that are treated as text (JSON field values, algorithm
  names, claim values) are Lean `String`, i.e. sequences of Unicode scalar
  values.  This is faithful for every valid-UTF-8 Go string.  Wire-format
  strings (compact serializations, base64 text, JSON documents) are modelled
  as their UTF-8 byte sequences, `List Nat`.
* A Go `error` is `GoError`; a function returning `error` returns
  `Option GoError` (`none` = nil) and a function returning `(T, error)`
  returns `Except GoError T`.
* Randomness (ECDSA nonces, RSA blinding) is passed explicitly where the
  result depends on it.
* Clocks (`time.Now`) are passed explicitly as an integer parameter.
-/

/-- Model of a Go `error` value.  `base` models a package-level sentinel made
with `errors.New` (identified by its message, all sentinels in this library
have distinct messages); `wrapf` models `fmt.Errorf` with a `%w` verb wrapping
`inner` and carrying the full formatted message; `plain` models `fmt.Errorf`
without `%w`. -/
inductive GoError where
  | base (msg : String)
  | wrapf (inner : GoError) (msg : String)
  | plain (msg : String)
deriving DecidableEq, Repr

/-- The `Error()` string of a `GoError`. -/
def goMsg : GoError → String
  | .base m => m
  | .wrapf _ m => m
  | .plain m => m

/-- Model of `errors.Is`: walk the unwrap chain looking for the target
sentinel. -/
def goErrorIs : GoError → GoError → Bool
  | e, target =>
    if e = target then true
    else match e with
      | .wrapf inner _ => goErrorIs inner target
      | _ => false

/-- Model of `fmt.Errorf("%w: %s", sentinel, x)`: the result unwraps to
`sentinel` and its message is the sentinel's message, a colon and the
suffix. -/
def wrapErr (sentinel : GoError) (suffix : String) : GoError :=
  .wrapf sentinel (goMsg sentinel ++ ": " ++ suffix)

theorem goErrorIs_wrapErr (s : GoError) (x : String) : goErrorIs (wrapErr s x) s = true := by
  unfold wrapErr goErrorIs
  by_cases h : GoError.wrapf s (goMsg s ++ ": " ++ x) = s
  · simp [h]
  · simp only [h, if_false]
    unfold goErrorIs
    simp

/-! ## Byte-sequence helpers (`math/big` conversions) -/

/-- `big.Int.SetBytes`: interpret a big-endian byte sequence as a natural
number. -/
def bytesToNat (bs : List Nat) : Nat :=
  bs.foldl (fun acc b => acc * 256 + b) 0

/-- Fuel-driven implementation of `big.Int.Bytes` (minimal big-endian
representation, empty for zero). -/
def natToBytesAux : Nat → Nat → List Nat
  | 0, _ => []
  | _ + 1, 0 => []
  | fuel + 1, n => natToBytesAux fuel (n / 256) ++ [n % 256]

/-- `big.Int.Bytes`: minimal big-endian byte representation. -/
def natToBytes (n : Nat) : List Nat :=
  natToBytesAux n n

/-- Left-zero padding of a big-endian representation to a fixed width, as done
by `leftPad` in `crypto/rsa`. -/
def natToBytesPadded (n width : Nat) : List Nat :=
  List.replicate (width - (natToBytes n).length) 0 ++ natToBytes n

def bitLenAux : Nat → Nat → Nat
  | 0, _ => 0
  | fuel + 1, n => if n = 0 then 0 else bitLenAux fuel (n / 2) + 1

/-- `big.Int.BitLen` (fuel-driven so that the kernel can evaluate it). -/
def bitLen (n : Nat) : Nat :=
  bitLenAux n n

theorem bytesToNat_cons_zero (bs : List Nat) : bytesToNat (0 :: bs) = bytesToNat bs := by
  simp [bytesToNat]

/-! ## base64url without padding (`internal/encoding`, backed by
`base64.URLEncoding.WithPadding(base64.NoPadding)`) -/

/-- The base64url alphabet: 6-bit value to ASCII code. -/
def b64Char (n : Nat) : Nat :=
  if n < 26 then 65 + n
  else if n < 52 then 97 + (n - 26)
  else if n < 62 then 48 + (n - 52)
  else if n = 62 then 45
  else 95

/-- Inverse alphabet lookup; `none` for a byte outside the alphabet. -/
def b64Val (c : Nat) : Option Nat :=
  if 65 ≤ c ∧ c ≤ 90 then some (c - 65)
  else if 97 ≤ c ∧ c ≤ 122 then some (c - 97 + 26)
  else if 48 ≤ c ∧ c ≤ 57 then some (c - 48 + 52)
  else if c = 45 then some 62
  else if c = 95 then some 63
  else none

/-- `encoding.Encode`: base64url encoding without padding, producing the ASCII
byte sequence of the encoded text. -/
def b64Encode : List Nat → List Nat
  | [] => []
  | [b0] => [b64Char (b0 / 4), b64Char (b0 % 4 * 16)]
  | [b0, b1] => [b64Char (b0 / 4), b64Char (b0 % 4 * 16 + b1 / 16), b64Char (b1 % 16 * 4)]
  | b0 :: b1 :: b2 :: rest =>
      b64Char (b0 / 4) :: b64Char (b0 % 4 * 16 + b1 / 16) ::
        b64Char (b1 % 16 * 4 + b2 / 64) :: b64Char (b2 % 64) :: b64Encode rest

/-- Regroup 6-bit values into bytes.  A single leftover value is an impossible
length (error); for 2 or 3 leftover values the unused low bits are ignored,
matching Go's non-strict decoder. -/
def b64Regroup : List Nat → Option (List Nat)
  | [] => some []
  | [_] => none
  | [v0, v1] => some [v0 * 4 + v1 / 16]
  | [v0, v1, v2] => some [v0 * 4 + v1 / 16, v1 % 16 * 16 + v2 / 4]
  | v0 :: v1 :: v2 :: v3 :: rest =>
      match b64Regroup rest with
      | none => none
      | some bs => some ((v0 * 4 + v1 / 16) :: (v1 % 16 * 16 + v2 / 4) :: (v2 % 4 * 64 + v3) :: bs)

/-- Translate each byte of the encoded text through the inverse alphabet. -/
def b64DecodeVals : List Nat → Option (List Nat)
  | [] => some []
  | c :: rest =>
      match b64Val c, b64DecodeVals rest with
      | some v, some vs => some (v :: vs)
      | _, _ => none

/-- `encoding.Decode`: base64url decoding; fails on non-alphabet bytes and on
impossible lengths. -/
def b64Decode (s : List Nat) : Option (List Nat) :=
  match b64DecodeVals s with
  | none => none
  | some vs => b64Regroup vs

theorem b64Val_b64Char : ∀ v < 64, b64Val (b64Char v) = some v := by decide

theorem b64Char_ne_dot (v : Nat) : b64Char v ≠ 46 := by
  unfold b64Char
  split <;> try omega
  split <;> try omega
  split <;> try omega
  split <;> omega

theorem b64Char_lt_256 (v : Nat) : b64Char v < 256 := by
  unfold b64Char
  split <;> try omega
  split <;> try omega
  split <;> try omega
  split <;> omega

theorem b64Encode_no_dot (bs : List Nat) : ∀ c ∈ b64Encode bs, c ≠ 46 := by
  induction bs using b64Encode.induct with
  | case1 => intro c hc; simp [b64Encode] at hc
  | case2 b0 =>
      intro c hc
      simp [b64Encode] at hc
      rcases hc with h | h <;> (subst h; exact b64Char_ne_dot _)
  | case3 b0 b1 =>
      intro c hc
      simp [b64Encode] at hc
      rcases hc with h | h | h <;> (subst h; exact b64Char_ne_dot _)
  | case4 b0 b1 b2 rest ih =>
      intro c hc
      simp only [b64Encode, List.mem_cons] at hc
      rcases hc with h | h | h | h | h
      · subst h; exact b64Char_ne_dot _
      · subst h; exact b64Char_ne_dot _
      · subst h; exact b64Char_ne_dot _
      · subst h; exact b64Char_ne_dot _
      · exact ih c h

/-- Decoding inverts encoding on byte sequences. -/
theorem b64Decode_b64Encode (bs : List Nat) (hb : ∀ b ∈ bs, b < 256) :
    b64Decode (b64Encode bs) = some bs := by
  induction bs using b64Encode.induct with
  | case1 => rfl
  | case2 b0 =>
      have h0 : b0 < 256 := hb b0 (by simp)
      simp only [b64Decode, b64Encode, b64DecodeVals,
        b64Val_b64Char (b0 / 4) (by omega), b64Val_b64Char (b0 % 4 * 16) (by omega)]
      unfold b64Regroup
      simp only [Option.some.injEq, List.cons.injEq, and_true]
      omega
  | case3 b0 b1 =>
      have h0 : b0 < 256 := hb b0 (by simp)
      have h1 : b1 < 256 := hb b1 (by simp)
      simp only [b64Decode, b64Encode, b64DecodeVals,
        b64Val_b64Char (b0 / 4) (by omega),
        b64Val_b64Char (b0 % 4 * 16 + b1 / 16) (by omega),
        b64Val_b64Char (b1 % 16 * 4) (by omega)]
      unfold b64Regroup
      simp only [Option.some.injEq, List.cons.injEq, and_true]
      exact ⟨by omega, by omega⟩
  | case4 b0 b1 b2 rest ih =>
      have h0 : b0 < 256 := hb b0 (by simp)
      have h1 : b1 < 256 := hb b1 (by simp)
      have h2 : b2 < 256 := hb b2 (by simp)
      have hrest : ∀ b ∈ rest, b < 256 := fun b h => hb b (by simp [h])
      have ihr := ih hrest
      simp only [b64Decode, b64Encode, b64DecodeVals,
        b64Val_b64Char (b0 / 4) (by omega),
        b64Val_b64Char (b0 % 4 * 16 + b1 / 16) (by omega),
        b64Val_b64Char (b1 % 16 * 4 + b2 / 64) (by omega),
        b64Val_b64Char (b2 % 64) (by omega)] at ihr ⊢
      cases hm : b64DecodeVals (b64Encode rest) with
      | none => rw [hm] at ihr; simp at ihr
      | some vs =>
          rw [hm] at ihr
          simp only
          unfold b64Regroup
          rw [show b64Regroup vs = some rest from ihr]
          simp only [Option.some.injEq, List.cons.injEq, and_true]
          exact ⟨by omega, by omega, by omega⟩

/-! ## UTF-8 (Go strings are UTF-8 byte sequences on the wire) -/

/-- UTF-8 encoding of one Unicode scalar value. -/
def utf8EncodeChar (c : Char) : List Nat :=
  let n := c.toNat
  if n < 128 then [n]
  else if n < 2048 then [192 + n / 64, 128 + n % 64]
  else if n < 65536 then [224 + n / 4096, 128 + n / 64 % 64, 128 + n % 64]
  else [240 + n / 262144, 128 + n / 4096 % 64, 128 + n / 64 % 64, 128 + n % 64]

/-- UTF-8 encoding of a character sequence. -/
def utf8Encode : List Char → List Nat
  | [] => []
  | c :: cs => utf8EncodeChar c ++ utf8Encode cs

/-- The UTF-8 byte sequence of a Go string. -/
def strBytes (s : String) : List Nat :=
  utf8Encode s.data

/-- Decode one UTF-8 encoded scalar value from the front of a byte sequence,
rejecting overlong encodings, surrogates and out-of-range values. -/
def utf8DecodeChar : List Nat → Option (Char × List Nat)
  | [] => none
  | b :: rest =>
    if b < 128 then some (Char.ofNat b, rest)
    else if b < 192 then none
    else if b < 224 then
      match rest with
      | b1 :: r =>
        if 128 ≤ b1 ∧ b1 < 192 then
          let n := (b - 192) * 64 + (b1 - 128)
          if 128 ≤ n then some (Char.ofNat n, r) else none
        else none
      | _ => none
    else if b < 240 then
      match rest with
      | b1 :: b2 :: r =>
        if 128 ≤ b1 ∧ b1 < 192 ∧ 128 ≤ b2 ∧ b2 < 192 then
          let n := (b - 224) * 4096 + (b1 - 128) * 64 + (b2 - 128)
          if 2048 ≤ n ∧ ¬(55296 ≤ n ∧ n < 57344) then some (Char.ofNat n, r) else none
        else none
      | _ => none
    else if b < 248 then
      match rest with
      | b1 :: b2 :: b3 :: r =>
        if 128 ≤ b1 ∧ b1 < 192 ∧ 128 ≤ b2 ∧ b2 < 192 ∧ 128 ≤ b3 ∧ b3 < 192 then
          let n := (b - 240) * 262144 + (b1 - 128) * 4096 + (b2 - 128) * 64 + (b3 - 128)
          if 65536 ≤ n ∧ n < 1114112 then some (Char.ofNat n, r) else none
        else none
      | _ => none
    else none

theorem char_toNat_valid (c : Char) :
    c.toNat < 55296 ∨ (57343 < c.toNat ∧ c.toNat < 1114112) := by
  rcases c.valid with h | ⟨h1, h2⟩
  · exact Or.inl (UInt32.toNat_lt_of_lt (by decide) h)
  · exact Or.inr ⟨UInt32.lt_toNat_of_lt (by decide) h1, UInt32.toNat_lt_of_lt (by decide) h2⟩

theorem utf8EncodeChar_lt_256 (c : Char) : ∀ b ∈ utf8EncodeChar c, b < 256 := by
  have hv := char_toNat_valid c
  unfold utf8EncodeChar
  intro b hb
  simp only at hb
  split at hb
  · simp at hb; omega
  · split at hb
    · simp at hb; rcases hb with h | h <;> omega
    · split at hb
      · simp at hb; rcases hb with h | h | h <;> omega
      · simp at hb; rcases hb with h | h | h | h <;> omega

/-- Decoding inverts encoding at the front of any byte sequence. -/
theorem utf8DecodeChar_encode (c : Char) (rest : List Nat) :
    utf8DecodeChar (utf8EncodeChar c ++ rest) = some (c, rest) := by
  have hv := char_toNat_valid c
  unfold utf8EncodeChar
  simp only
  split
  · unfold utf8DecodeChar
    simp only [List.cons_append]
    rw [if_pos (by omega)]
    rw [Char.ofNat_toNat]
    simp
  · split
    · unfold utf8DecodeChar
      simp only [List.cons_append]
      rw [if_neg (by omega), if_neg (by omega), if_pos (by omega)]
      rw [if_pos (by constructor <;> omega)]
      rw [if_pos (by omega)]
      rw [show (192 + c.toNat / 64 - 192) * 64 + (128 + c.toNat % 64 - 128) = c.toNat by omega]
      rw [Char.ofNat_toNat]
      simp
    · split
      · unfold utf8DecodeChar
        simp only [List.cons_append]
        rw [if_neg (by omega), if_neg (by omega), if_neg (by omega), if_pos (by omega)]
        rw [if_pos (by refine ⟨by omega, by omega, by omega, by omega⟩)]
        rw [show (224 + c.toNat / 4096 - 224) * 4096 + (128 + c.toNat / 64 % 64 - 128) * 64 +
              (128 + c.toNat % 64 - 128) = c.toNat by omega]
        rw [if_pos (by constructor <;> omega)]
        rw [Char.ofNat_toNat]
        simp
      · unfold utf8DecodeChar
        simp only [List.cons_append]
        rw [if_neg (by omega), if_neg (by omega), if_neg (by omega), if_neg (by omega),
          if_pos (by omega)]
        rw [if_pos (by refine ⟨by omega, by omega, by omega, by omega, by omega, by omega⟩)]
        rw [show (240 + c.toNat / 262144 - 240) * 262144 + (128 + c.toNat / 4096 % 64 - 128) * 4096 +
              (128 + c.toNat / 64 % 64 - 128) * 64 + (128 + c.toNat % 64 - 128) = c.toNat by omega]
        rw [if_pos (by constructor <;> omega)]
        rw [Char.ofNat_toNat]
        simp

/-! ## JSON string escaping and parsing (`encoding/json`) -/

/-- Lower-case hexadecimal digit, as used by `encoding/json`. -/
def hexDigit (d : Nat) : Nat :=
  if d < 10 then 48 + d else 87 + d

/-- Hexadecimal digit value (accepting both cases), as used by the JSON
string unescaper. -/
def hexVal (c : Nat) : Option Nat :=
  if 48 ≤ c ∧ c ≤ 57 then some (c - 48)
  else if 97 ≤ c ∧ c ≤ 102 then some (c - 87)
  else if 65 ≤ c ∧ c ≤ 70 then some (c - 55)
  else none

theorem hexVal_hexDigit : ∀ d < 16, hexVal (hexDigit d) = some d := by decide

/-- `encoding/json` string escaping with its default HTML escaping: quote,
backslash, newline, carriage return and tab get two-byte escapes; other
control characters and `<`, `>`, `&` get `\u00xx`; U+2028 and U+2029 get
` `/` `; everything else is emitted as raw UTF-8. -/
def escapeChar (c : Char) : List Nat :=
  let n := c.toNat
  if n = 34 then [92, 34]
  else if n = 92 then [92, 92]
  else if n = 10 then [92, 110]
  else if n = 13 then [92, 114]
  else if n = 9 then [92, 116]
  else if n < 32 ∨ n = 60 ∨ n = 62 ∨ n = 38 then
    [92, 117, 48, 48, hexDigit (n / 16), hexDigit (n % 16)]
  else if n = 8232 ∨ n = 8233 then [92, 117, 50, 48, 50, hexDigit (n % 16)]
  else utf8EncodeChar c

def escapeString : List Char → List Nat
  | [] => []
  | c :: cs => escapeChar c ++ escapeString cs

/-- A JSON string literal: quote, escaped content, quote. -/
def strLit (s : String) : List Nat :=
  34 :: (escapeString s.data ++ [34])

/-- Parse the body of a JSON string literal (the opening quote has already
been consumed), returning the decoded characters and the bytes after the
closing quote.  Mirrors `encoding/json`: raw control bytes are rejected,
surrogate escape pairs are combined, lone surrogates and invalid UTF-8
decode to U+FFFD. -/
def parseStrBody : Nat → List Nat → Option (List Char × List Nat)
  | 0, _ => none
  | fuel + 1, bs =>
    match bs with
    | [] => none
    | b :: rest =>
      if b = 34 then some ([], rest)
      else if b = 92 then
        match rest with
        | [] => none
        | e :: r2 =>
          if e = 34 then (parseStrBody fuel r2).map (fun p => ('"' :: p.1, p.2))
          else if e = 92 then (parseStrBody fuel r2).map (fun p => ('\\' :: p.1, p.2))
          else if e = 47 then (parseStrBody fuel r2).map (fun p => ('/' :: p.1, p.2))
          else if e = 98 then (parseStrBody fuel r2).map (fun p => (Char.ofNat 8 :: p.1, p.2))
          else if e = 102 then (parseStrBody fuel r2).map (fun p => (Char.ofNat 12 :: p.1, p.2))
          else if e = 110 then (parseStrBody fuel r2).map (fun p => (Char.ofNat 10 :: p.1, p.2))
          else if e = 114 then (parseStrBody fuel r2).map (fun p => (Char.ofNat 13 :: p.1, p.2))
          else if e = 116 then (parseStrBody fuel r2).map (fun p => (Char.ofNat 9 :: p.1, p.2))
          else if e = 117 then
            match r2 with
            | h1 :: h2 :: h3 :: h4 :: r3 =>
              match hexVal h1, hexVal h2, hexVal h3, hexVal h4 with
              | some d1, some d2, some d3, some d4 =>
                let n := ((d1 * 16 + d2) * 16 + d3) * 16 + d4
                if 55296 ≤ n ∧ n < 56320 then
                  match r3 with
                  | 92 :: 117 :: g1 :: g2 :: g3 :: g4 :: r4 =>
                    match hexVal g1, hexVal g2, hexVal g3, hexVal g4 with
                    | some e1, some e2, some e3, some e4 =>
                      let m := ((e1 * 16 + e2) * 16 + e3) * 16 + e4
                      if 56320 ≤ m ∧ m < 57344 then
                        (parseStrBody fuel r4).map
                          (fun p => (Char.ofNat ((n - 55296) * 1024 + (m - 56320) + 65536) :: p.1, p.2))
                      else (parseStrBody fuel r3).map (fun p => (Char.ofNat 65533 :: p.1, p.2))
                    | _, _, _, _ =>
                        (parseStrBody fuel r3).map (fun p => (Char.ofNat 65533 :: p.1, p.2))
                  | _ => (parseStrBody fuel r3).map (fun p => (Char.ofNat 65533 :: p.1, p.2))
                else if 56320 ≤ n ∧ n < 57344 then
                  (parseStrBody fuel r3).map (fun p => (Char.ofNat 65533 :: p.1, p.2))
                else (parseStrBody fuel r3).map (fun p => (Char.ofNat n :: p.1, p.2))
              | _, _, _, _ => none
            | _ => none
          else none
      else if b < 32 then none
      else if b < 128 then (parseStrBody fuel rest).map (fun p => (Char.ofNat b :: p.1, p.2))
      else
        match utf8DecodeChar (b :: rest) with
        | some (c, r) => (parseStrBody fuel r).map (fun p => (c :: p.1, p.2))
        | none => (parseStrBody fuel rest).map (fun p => (Char.ofNat 65533 :: p.1, p.2))

theorem escapeString_cons (c : Char) (cs : List Char) :
    escapeString (c :: cs) = escapeChar c ++ escapeString cs := rfl

/-- Parsing a string body inverts escaping, for any continuation and enough
fuel (one unit per character plus one for the closing quote). -/
theorem parseStrBody_escape (s : List Char) :
    ∀ (rest : List Nat) (fuel : Nat), s.length < fuel →
      parseStrBody fuel (escapeString s ++ 34 :: rest) = some (s, rest) := by
  induction s with
  | nil =>
      intro rest fuel hf
      match fuel with
      | f + 1 => simp [escapeString, parseStrBody]
  | cons c cs ih =>
      intro rest fuel hf
      match fuel with
      | f + 1 =>
        have hcs : cs.length < f := by simp at hf; omega
        have hv := char_toNat_valid c
        have ihr := ih (rest) f hcs
        rw [escapeString_cons, List.append_assoc]
        by_cases h34 : c.toNat = 34
        · have hesc : escapeChar c = [92, 34] := by simp [escapeChar, h34]
          have hc : Char.ofNat 34 = c := by rw [← h34, Char.ofNat_toNat]
          rw [hesc]
          simp only [List.cons_append, List.nil_append, parseStrBody]
          simp [ihr, hc]
          rw [← hc]
        · by_cases h92 : c.toNat = 92
          · have hesc : escapeChar c = [92, 92] := by simp [escapeChar, h34, h92]
            have hc : Char.ofNat 92 = c := by rw [← h92, Char.ofNat_toNat]
            rw [hesc]
            simp only [List.cons_append, List.nil_append, parseStrBody]
            simp [ihr, hc]
            rw [← hc]
          · by_cases h10 : c.toNat = 10
            · have hesc : escapeChar c = [92, 110] := by simp [escapeChar, h34, h92, h10]
              have hc : Char.ofNat 10 = c := by rw [← h10, Char.ofNat_toNat]
              rw [hesc]
              simp only [List.cons_append, List.nil_append, parseStrBody]
              simp [ihr, hc]
              exact hc
            · by_cases h13 : c.toNat = 13
              · have hesc : escapeChar c = [92, 114] := by simp [escapeChar, h34, h92, h10, h13]
                have hc : Char.ofNat 13 = c := by rw [← h13, Char.ofNat_toNat]
                rw [hesc]
                simp only [List.cons_append, List.nil_append, parseStrBody]
                simp [ihr, hc]
                exact hc
              · by_cases h9 : c.toNat = 9
                · have hesc : escapeChar c = [92, 116] := by
                    simp [escapeChar, h34, h92, h10, h13, h9]
                  have hc : Char.ofNat 9 = c := by rw [← h9, Char.ofNat_toNat]
                  rw [hesc]
                  simp only [List.cons_append, List.nil_append, parseStrBody]
                  simp [ihr, hc]
                  exact hc
                · by_cases hctl : c.toNat < 32 ∨ c.toNat = 60 ∨ c.toNat = 62 ∨ c.toNat = 38
                  · have hesc : escapeChar c =
                        [92, 117, 48, 48, hexDigit (c.toNat / 16), hexDigit (c.toNat % 16)] := by
                      simp [escapeChar, h34, h92, h10, h13, h9, hctl]
                    have hlt : c.toNat < 64 := by omega
                    have e3 := hexVal_hexDigit (c.toNat / 16) (by omega)
                    have e4 := hexVal_hexDigit (c.toNat % 16) (by omega)
                    have h48 : hexVal 48 = some 0 := by decide
                    have hc : Char.ofNat c.toNat = c := Char.ofNat_toNat c
                    rw [hesc]
                    simp only [List.cons_append, List.nil_append, parseStrBody]
                    simp only [show ¬(92 = (34:Nat)) from by decide, if_false, if_true,
                      show ¬(117 = (34:Nat)) from by decide, show ¬(117 = (92:Nat)) from by decide,
                      show ¬(117 = (47:Nat)) from by decide, show ¬(117 = (98:Nat)) from by decide,
                      show ¬(117 = (102:Nat)) from by decide, show ¬(117 = (110:Nat)) from by decide,
                      show ¬(117 = (114:Nat)) from by decide, show ¬(117 = (116:Nat)) from by decide,
                      show (92 = (92:Nat)) from rfl, show (117 = (117:Nat)) from rfl,
                      h48, e3, e4]
                    rw [show ((0 * 16 + 0) * 16 + c.toNat / 16) * 16 + c.toNat % 16 = c.toNat by
                      omega]
                    rw [if_neg (by omega), if_neg (by omega)]
                    simp [ihr, hc]
                  · by_cases hls : c.toNat = 8232 ∨ c.toNat = 8233
                    · have hesc : escapeChar c =
                          [92, 117, 50, 48, 50, hexDigit (c.toNat % 16)] := by
                        simp [escapeChar, h34, h92, h10, h13, h9, hctl, hls]
                      have e4 := hexVal_hexDigit (c.toNat % 16) (by omega)
                      have h50 : hexVal 50 = some 2 := by decide
                      have h48 : hexVal 48 = some 0 := by decide
                      have hc : Char.ofNat c.toNat = c := Char.ofNat_toNat c
                      rw [hesc]
                      simp only [List.cons_append, List.nil_append, parseStrBody]
                      simp only [show ¬(92 = (34:Nat)) from by decide, if_false, if_true,
                        show ¬(117 = (34:Nat)) from by decide,
                        show ¬(117 = (92:Nat)) from by decide,
                        show ¬(117 = (47:Nat)) from by decide,
                        show ¬(117 = (98:Nat)) from by decide,
                        show ¬(117 = (102:Nat)) from by decide,
                        show ¬(117 = (110:Nat)) from by decide,
                        show ¬(117 = (114:Nat)) from by decide,
                        show ¬(117 = (116:Nat)) from by decide,
                        show (92 = (92:Nat)) from rfl, show (117 = (117:Nat)) from rfl,
                        h48, h50, e4]
                      rw [show ((2 * 16 + 0) * 16 + 2) * 16 + c.toNat % 16 = c.toNat by omega]
                      rw [if_neg (by omega), if_neg (by omega)]
                      simp [ihr, hc]
                    · have hesc : escapeChar c = utf8EncodeChar c := by
                        simp [escapeChar, h34, h92, h10, h13, h9, hctl, hls]
                      rw [hesc]
                      by_cases hsm : c.toNat < 128
                      · have henc : utf8EncodeChar c = [c.toNat] := by
                          simp [utf8EncodeChar, hsm]
                        rw [henc]
                        simp only [List.cons_append, List.nil_append, parseStrBody]
                        rw [if_neg (by omega), if_neg (by omega), if_neg (by omega),
                          if_pos hsm, ihr, Char.ofNat_toNat]
                        rfl
                      · have hd := utf8DecodeChar_encode c (escapeString cs ++ 34 :: rest)
                        have hhead : ∃ b tail, utf8EncodeChar c = b :: tail ∧ 192 ≤ b ∧ b < 248 := by
                          unfold utf8EncodeChar
                          simp only
                          rw [if_neg hsm]
                          split
                          · exact ⟨_, _, rfl, by omega, by omega⟩
                          · split
                            · exact ⟨_, _, rfl, by omega, by omega⟩
                            · exact ⟨_, _, rfl, by omega, by omega⟩
                        obtain ⟨b, tail, hb, hb1, hb2⟩ := hhead
                        rw [hb]
                        simp only [List.cons_append, parseStrBody]
                        rw [if_neg (by omega), if_neg (by omega), if_neg (by omega),
                          if_neg (by omega)]
                        rw [hb] at hd
                        simp only [List.cons_append] at hd
                        rw [hd]
                        simp [ihr]

/-! ## JSON values (`encoding/json` documents)

JSON numbers are modelled as integers: every numeric value this library's
claims touch (Unix timestamps, key parameters) is integral, and the embedding
restricts the numeric grammar accordingly. -/

inductive Json where
  | null
  | bool (b : Bool)
  | num (n : Int)
  | str (s : String)
  | arr (elems : List Json)
  | obj (members : List (String × Json))
deriving Repr

def isWsByte (b : Nat) : Bool :=
  b = 32 || b = 9 || b = 10 || b = 13

def skipWs : List Nat → List Nat
  | [] => []
  | b :: rest => if isWsByte b then skipWs rest else b :: rest

def isDigitByte (b : Nat) : Bool :=
  48 ≤ b && b ≤ 57

/-- Parse a JSON string literal body with guaranteed-sufficient fuel (the
parser consumes at least one byte per step). -/
def parseJString (bs : List Nat) : Option (List Char × List Nat) :=
  parseStrBody (bs.length + 1) bs

def digitsToNat (ds : List Nat) : Nat :=
  ds.foldl (fun a d => a * 10 + (d - 48)) 0

/-- Parse a JSON number.  Restricted to the integer grammar (optional minus,
no leading zeros, no fraction/exponent). -/
def parseNum (bs : List Nat) : Option (Int × List Nat) :=
  match bs with
  | 45 :: r =>
    let ds := r.takeWhile isDigitByte
    let rest := r.dropWhile isDigitByte
    if ds = [] then none
    else if ds.headD 0 = 48 ∧ ds.length > 1 then none
    else some (-(digitsToNat ds : Int), rest)
  | r =>
    let ds := r.takeWhile isDigitByte
    let rest := r.dropWhile isDigitByte
    if ds = [] then none
    else if ds.headD 0 = 48 ∧ ds.length > 1 then none
    else some ((digitsToNat ds : Int), rest)

mutual

/-- Parse one JSON value.  Fuel decreases at each nested value; a fuel of
`input.length + 1` suffices for every well-formed document. -/
def parseValue : Nat → List Nat → Option (Json × List Nat)
  | 0, _ => none
  | fuel + 1, input =>
    match skipWs input with
    | [] => none
    | b :: bs =>
      if b = 110 then
        match bs with
        | 117 :: 108 :: 108 :: r => some (.null, r)
        | _ => none
      else if b = 116 then
        match bs with
        | 114 :: 117 :: 101 :: r => some (.bool true, r)
        | _ => none
      else if b = 102 then
        match bs with
        | 97 :: 108 :: 115 :: 101 :: r => some (.bool false, r)
        | _ => none
      else if b = 34 then
        match parseJString bs with
        | some (cs, r) => some (.str ⟨cs⟩, r)
        | none => none
      else if b = 91 then
        match skipWs bs with
        | 93 :: r => some (.arr [], r)
        | bs2 =>
          match parseElems fuel bs2 with
          | some (vs, r) => some (.arr vs, r)
          | none => none
      else if b = 123 then
        match skipWs bs with
        | 125 :: r => some (.obj [], r)
        | bs2 =>
          match parseMembers fuel bs2 with
          | some (ms, r) => some (.obj ms, r)
          | none => none
      else if b = 45 ∨ isDigitByte b then
        match parseNum (b :: bs) with
        | some (n, r) => some (.num n, r)
        | none => none
      else none

/-- Parse the elements of a non-empty JSON array up to the closing bracket. -/
def parseElems : Nat → List Nat → Option (List Json × List Nat)
  | 0, _ => none
  | fuel + 1, bs =>
    match parseValue fuel bs with
    | none => none
    | some (v, r) =>
      match skipWs r with
      | 44 :: r2 => (parseElems fuel r2).map (fun p => (v :: p.1, p.2))
      | 93 :: r2 => some ([v], r2)
      | _ => none

/-- Parse the members of a non-empty JSON object up to the closing brace. -/
def parseMembers : Nat → List Nat → Option (List (String × Json) × List Nat)
  | 0, _ => none
  | fuel + 1, bs =>
    match skipWs bs with
    | 34 :: r =>
      match parseJString r with
      | none => none
      | some (k, r2) =>
        match skipWs r2 with
        | 58 :: r3 =>
          match parseValue fuel r3 with
          | none => none
          | some (v, r4) =>
            match skipWs r4 with
            | 44 :: r5 => (parseMembers fuel r5).map (fun p => ((⟨k⟩, v) :: p.1, p.2))
            | 125 :: r5 => some ([(⟨k⟩, v)], r5)
            | _ => none
        | _ => none
    | _ => none

end

/-- `json.Unmarshal`-style whole-document parse: one value, trailing
whitespace only. -/
def jsonParse (bs : List Nat) : Option Json :=
  match parseValue (bs.length + 1) bs with
  | some (v, rest) => if skipWs rest = [] then some v else none
  | none => none

/-- Decimal digits of a natural number (fuel-driven). -/
def natDecimalAux : Nat → Nat → List Nat
  | 0, _ => []
  | _ + 1, n =>
    if n < 10 then [48 + n]
    else natDecimalAux (n / 10) (n / 10) ++ [48 + n % 10]

def natDecimal (n : Nat) : List Nat :=
  if n < 10 then [48 + n] else natDecimalAux n n

def intDecimal (n : Int) : List Nat :=
  if n < 0 then 45 :: natDecimal n.natAbs else natDecimal n.natAbs

mutual

/-- `json.Marshal` of a JSON value (members in the order of the given list;
the caller supplies sorted members when modelling map marshalling). -/
def jsonBytes : Json → List Nat
  | .null => [110, 117, 108, 108]
  | .bool true => [116, 114, 117, 101]
  | .bool false => [102, 97, 108, 115, 101]
  | .num n => intDecimal n
  | .str s => strLit s
  | .arr xs => 91 :: jsonBytesArr xs
  | .obj ms => 123 :: jsonBytesObj ms

def jsonBytesArr : List Json → List Nat
  | [] => [93]
  | [x] => jsonBytes x ++ [93]
  | x :: y :: rest => jsonBytes x ++ 44 :: jsonBytesArr (y :: rest)

def jsonBytesObj : List (String × Json) → List Nat
  | [] => [125]
  | [(k, v)] => strLit k ++ 58 :: (jsonBytes v ++ [125])
  | (k, v) :: m :: rest => strLit k ++ 58 :: (jsonBytes v ++ 44 :: jsonBytesObj (m :: rest))

end

/-! ## JWS header (`jws.Header`) -/

/-- `jws.ErrInvalidCompactJWS`. -/
def ErrInvalidCompactJWS : GoError := .base "invalid compact JWS"

/-- `jws.ErrInvalidHeader`. -/
def ErrInvalidHeader : GoError := .base "invalid header"

/-- `jws.ErrInvalidSignature`. -/
def ErrInvalidSignature : GoError := .base "invalid signature"

/-- `jws.Header`: `alg` is the `Algorithm` field (a `SignatureAlgorithm`
string), `typ` the `Type` field (JSON tag `typ,omitempty`). -/
structure Header where
  alg : String
  typ : String
deriving DecidableEq, Repr

/-- `json.Marshal` applied to a `Header` value: struct fields in order,
`typ` omitted when empty. -/
def marshalHeaderBytes (h : Header) : List Nat :=
  if h.typ = "" then
    123 :: (strLit "alg" ++ 58 :: (strLit h.alg ++ [125]))
  else
    123 :: (strLit "alg" ++ 58 :: (strLit h.alg ++
      44 :: (strLit "typ" ++ 58 :: (strLit h.typ ++ [125]))))

/-- `Header.Encode`: base64url of the JSON marshalling. -/
def headerEncode (h : Header) : List Nat :=
  b64Encode (marshalHeaderBytes h)

/-- ASCII-only model of the case folding `encoding/json` uses to match object
keys to struct fields (sufficient for the keys this library emits). -/
def lowerAscii (c : Char) : Char :=
  if 65 ≤ c.toNat ∧ c.toNat ≤ 90 then Char.ofNat (c.toNat + 32) else c

def eqFoldAscii (a b : String) : Bool :=
  a.data.map lowerAscii = b.data.map lowerAscii

/-- Fold `json.Unmarshal`-style member assignment into a `Header` (later
members overwrite, unknown members are ignored, non-string values for known
members are type errors). -/
def decodeHeaderMembers : List (String × Json) → Header → Option Header
  | [], h => some h
  | (k, v) :: rest, h =>
    if eqFoldAscii k "alg" then
      match v with
      | .str s => decodeHeaderMembers rest ⟨s, h.typ⟩
      | _ => none
    else if eqFoldAscii k "typ" then
      match v with
      | .str s => decodeHeaderMembers rest ⟨h.alg, s⟩
      | _ => none
    else decodeHeaderMembers rest h

/-- `json.Unmarshal` of a document into a `Header` value. -/
def decodeHeaderVal : Json → Option Header
  | .obj ms => decodeHeaderMembers ms ⟨"", ""⟩
  | _ => none

/-- `jws.DecodeHeader`: base64url-decode, then JSON-decode into a header;
every failure is wrapped with `ErrInvalidHeader`. -/
def DecodeHeader (encoded : List Nat) : Except GoError Header :=
  match b64Decode encoded with
  | none => .error (wrapErr ErrInvalidHeader "illegal base64 data")
  | some bytes =>
    match jsonParse bytes with
    | none => .error (wrapErr ErrInvalidHeader "invalid character in JSON")
    | some v =>
      match decodeHeaderVal v with
      | none => .error (wrapErr ErrInvalidHeader "cannot unmarshal value into Header")
      | some h => .ok h

/-! Byte bounds and length facts for the marshalled header. -/

theorem escapeChar_lt_256 (c : Char) : ∀ b ∈ escapeChar c, b < 256 := by
  intro b hb
  unfold escapeChar at hb
  simp only at hb
  split at hb
  · simp at hb; omega
  · split at hb
    · simp at hb; omega
    · split at hb
      · simp at hb; rcases hb with h | h <;> omega
      · split at hb
        · simp at hb; rcases hb with h | h <;> omega
        · split at hb
          · simp at hb; rcases hb with h | h <;> omega
          · split at hb
            · simp at hb
              have hd1 : hexDigit (c.toNat / 16) < 256 := by unfold hexDigit; split <;> omega
              have hd2 : hexDigit (c.toNat % 16) < 256 := by unfold hexDigit; split <;> omega
              omega
            · split at hb
              · simp at hb
                have hd2 : hexDigit (c.toNat % 16) < 256 := by
                  unfold hexDigit; split <;> omega
                omega
              · exact utf8EncodeChar_lt_256 c b hb

theorem escapeString_lt_256 (s : List Char) : ∀ b ∈ escapeString s, b < 256 := by
  induction s with
  | nil => intro b hb; simp [escapeString] at hb
  | cons c cs ih =>
      intro b hb
      rw [escapeString_cons] at hb
      rcases List.mem_append.mp hb with h | h
      · exact escapeChar_lt_256 c b h
      · exact ih b h

theorem strLit_lt_256 (s : String) : ∀ b ∈ strLit s, b < 256 := by
  intro b hb
  unfold strLit at hb
  rcases List.mem_cons.mp hb with h | h
  · omega
  · rcases List.mem_append.mp h with h2 | h2
    · exact escapeString_lt_256 s.data b h2
    · simp at h2; omega

theorem marshalHeaderBytes_lt_256 (h : Header) : ∀ b ∈ marshalHeaderBytes h, b < 256 := by
  intro b hb
  unfold marshalHeaderBytes at hb
  split at hb <;>
    (simp only [List.mem_cons, List.mem_append] at hb
     rcases hb with h1 | h1
     · omega
     · first
        | (rcases h1 with h2 | h2
           · exact strLit_lt_256 _ b h2
           · rcases h2 with h3 | h3
             · omega
             · rcases h3 with h4 | h4
               · exact strLit_lt_256 _ b h4
               · simp at h4; omega)
        | (rcases h1 with h2 | h2
           · exact strLit_lt_256 _ b h2
           · rcases h2 with h3 | h3
             · omega
             · rcases h3 with h4 | h4
               · exact strLit_lt_256 _ b h4
               · rcases h4 with h5 | h5
                 · omega
                 · rcases h5 with h6 | h6
                   · exact strLit_lt_256 _ b h6
                   · rcases h6 with h7 | h7
                     · omega
                     · rcases h7 with h8 | h8
                       · exact strLit_lt_256 _ b h8
                       · simp at h8; omega))

theorem one_le_escapeChar_length (c : Char) : 1 ≤ (escapeChar c).length := by
  unfold escapeChar
  simp only
  split
  · simp
  · split
    · simp
    · split
      · simp
      · split
        · simp
        · split
          · simp
          · split
            · simp
            · split
              · simp
              · unfold utf8EncodeChar
                simp only
                split
                · simp
                · split
                  · simp
                  · split <;> simp

theorem escapeString_length (s : List Char) : s.length ≤ (escapeString s).length := by
  induction s with
  | nil => simp [escapeString]
  | cons c cs ih =>
      rw [escapeString_cons, List.length_append, List.length_cons]
      have := one_le_escapeChar_length c
      omega

/-- `parseJString` inverts escaping: its internal fuel is always sufficient. -/
theorem parseJString_escape (s : List Char) (rest : List Nat) :
    parseJString (escapeString s ++ 34 :: rest) = some (s, rest) := by
  unfold parseJString
  apply parseStrBody_escape
  have := escapeString_length s
  simp only [List.length_append, List.length_cons]
  omega

theorem skipWs_cons (b : Nat) (rest : List Nat) (hb : isWsByte b = false) :
    skipWs (b :: rest) = b :: rest := by
  unfold skipWs
  simp [hb]

theorem string_eta (s : String) : String.mk s.data = s := rfl

/-- Parsing one `"key":"value"` object member from its marshalled bytes. -/
theorem parseMembers_strMember (g : Nat) (k v : String) (rest : List Nat) (hg : 1 ≤ g) :
    parseMembers (g + 1)
        (34 :: (escapeString k.data ++ 34 ::
          (58 :: (34 :: (escapeString v.data ++ 34 :: rest)))))
      = match skipWs rest with
        | 44 :: r5 => (parseMembers g r5).map (fun p => ((k, Json.str v) :: p.1, p.2))
        | 125 :: r5 => some ([(k, Json.str v)], r5)
        | _ => none := by
  obtain ⟨g1, rfl⟩ : ∃ m, g = m + 1 := ⟨g - 1, by omega⟩
  simp [parseMembers, parseValue, skipWs, isWsByte, parseJString_escape, string_eta]

/-- The JSON value `json.Marshal` produces for a header. -/
def headerJson (h : Header) : Json :=
  if h.typ = "" then .obj [("alg", .str h.alg)]
  else .obj [("alg", .str h.alg), ("typ", .str h.typ)]

/-- Parsing the marshalled header yields its JSON value, for any fuel of at
least 4 and any trailing bytes. -/
theorem parseValue_marshalHeader (h : Header) (ext : List Nat) :
    ∀ fuel, 4 ≤ fuel →
      parseValue fuel (marshalHeaderBytes h ++ ext) = some (headerJson h, ext) := by
  intro fuel hfuel
  obtain ⟨f, rfl⟩ : ∃ k, fuel = k + 1 + 1 + 1 + 1 := ⟨fuel - 4, by omega⟩
  by_cases ht : h.typ = ""
  · have hshape : marshalHeaderBytes h ++ ext
        = 123 :: (34 :: (escapeString "alg".data ++ 34 ::
            (58 :: (34 :: (escapeString h.alg.data ++ 34 :: (125 :: ext)))))) := by
      simp [marshalHeaderBytes, strLit, ht, List.append_assoc]
    rw [hshape]
    have hm := parseMembers_strMember (f + 1 + 1) "alg" h.alg (125 :: ext) (by omega)
    simp [parseValue, skipWs, isWsByte, hm, headerJson, ht, string_eta]
  · have hshape : marshalHeaderBytes h ++ ext
        = 123 :: (34 :: (escapeString "alg".data ++ 34 ::
            (58 :: (34 :: (escapeString h.alg.data ++ 34 ::
              (44 :: (34 :: (escapeString "typ".data ++ 34 ::
                (58 :: (34 :: (escapeString h.typ.data ++ 34 :: (125 :: ext)))))))))))) := by
      simp [marshalHeaderBytes, strLit, ht, List.append_assoc]
    rw [hshape]
    have hm1 := parseMembers_strMember (f + 1 + 1) "alg" h.alg
      (44 :: (34 :: (escapeString "typ".data ++ 34 ::
        (58 :: (34 :: (escapeString h.typ.data ++ 34 :: (125 :: ext))))))) (by omega)
    have hm2 := parseMembers_strMember (f + 1) "typ" h.typ (125 :: ext) (by omega)
    simp [parseValue, skipWs, isWsByte, hm1, hm2, headerJson, ht, string_eta]

theorem strLit_length (s : String) : 2 ≤ (strLit s).length := by
  unfold strLit
  simp

theorem marshalHeaderBytes_length (h : Header) : 3 ≤ (marshalHeaderBytes h).length := by
  unfold marshalHeaderBytes
  have h1 := strLit_length "alg"
  have h2 := strLit_length h.alg
  split <;> simp <;> omega

theorem jsonParse_marshalHeader (h : Header) :
    jsonParse (marshalHeaderBytes h) = some (headerJson h) := by
  unfold jsonParse
  have hl := marshalHeaderBytes_length h
  have hp := parseValue_marshalHeader h [] ((marshalHeaderBytes h).length + 1) (by omega)
  rw [List.append_nil] at hp
  rw [hp]
  simp [skipWs]

theorem decodeHeaderVal_headerJson (h : Header) : decodeHeaderVal (headerJson h) = some h := by
  unfold headerJson
  split
  · rename_i ht
    simp [decodeHeaderVal, decodeHeaderMembers,
      show eqFoldAscii "alg" "alg" = true from by decide]
    rw [show (⟨h.alg, ""⟩ : Header) = ⟨h.alg, h.typ⟩ from by rw [ht]]
  · simp [decodeHeaderVal, decodeHeaderMembers,
      show eqFoldAscii "alg" "alg" = true from by decide,
      show eqFoldAscii "typ" "alg" = false from by decide,
      show eqFoldAscii "typ" "typ" = true from by decide]

/-- `DecodeHeader` inverts `Header.Encode`. -/
theorem DecodeHeader_headerEncode (h : Header) : DecodeHeader (headerEncode h) = .ok h := by
  unfold DecodeHeader headerEncode
  rw [b64Decode_b64Encode _ (marshalHeaderBytes_lt_256 h)]
  simp [jsonParse_marshalHeader, decodeHeaderVal_headerJson]

/-! ## JWS envelope (`jws.JWS`, `Sign`, `ParseCompact`, `Compact`) -/

/-- `strings.Split` on a single separator byte (empty parts preserved). -/
def splitOnByte (sep : Nat) : List Nat → List (List Nat)
  | [] => [[]]
  | b :: rest =>
    match splitOnByte sep rest with
    | [] => [[]]
    | cur :: parts => if b = sep then [] :: cur :: parts else (b :: cur) :: parts

theorem splitOnByte_ne_nil (sep : Nat) (bs : List Nat) : splitOnByte sep bs ≠ [] := by
  cases bs with
  | nil => simp [splitOnByte]
  | cons b rest =>
      unfold splitOnByte
      cases hs : splitOnByte sep rest with
      | nil => simp
      | cons cur parts =>
          simp only
          split <;> simp

theorem splitOnByte_sepFree (sep : Nat) (c : List Nat) (hc : ∀ b ∈ c, b ≠ sep) :
    splitOnByte sep c = [c] := by
  induction c with
  | nil => rfl
  | cons b rest ih =>
      have hb : b ≠ sep := hc b (by simp)
      have hrest : ∀ x ∈ rest, x ≠ sep := fun x hx => hc x (by simp [hx])
      conv_lhs => rw [splitOnByte]
      rw [ih hrest]
      simp [hb]

theorem splitOnByte_append_sep (sep : Nat) (a tail : List Nat) (ha : ∀ b ∈ a, b ≠ sep) :
    splitOnByte sep (a ++ sep :: tail) = a :: splitOnByte sep tail := by
  induction a with
  | nil =>
      simp only [List.nil_append]
      conv_lhs => rw [splitOnByte]
      cases hs : splitOnByte sep tail with
      | nil => exact absurd hs (splitOnByte_ne_nil sep tail)
      | cons cur parts => simp
  | cons b a2 ih =>
      have hb : b ≠ sep := ha b (by simp)
      have ha2 : ∀ x ∈ a2, x ≠ sep := fun x hx => ha x (by simp [hx])
      simp only [List.cons_append]
      conv_lhs => rw [splitOnByte]
      rw [ih ha2]
      simp [hb]

/-- Splitting a three-part compact string at the separators. -/
theorem splitOnByte_three (sep : Nat) (x y z : List Nat)
    (hx : ∀ b ∈ x, b ≠ sep) (hy : ∀ b ∈ y, b ≠ sep) (hz : ∀ b ∈ z, b ≠ sep) :
    splitOnByte sep (x ++ sep :: (y ++ sep :: z)) = [x, y, z] := by
  rw [splitOnByte_append_sep sep x _ hx, splitOnByte_append_sep sep y _ hy,
    splitOnByte_sepFree sep z hz]

/-- Model of the `jws.Signer` interface: the bound algorithm name
(`Alg()`) and the signing function (`Sign`); any internal randomness is
already fixed inside the function. -/
structure SignerS where
  alg : String
  sign : List Nat → Except GoError (List Nat)

/-- Model of the `jws.Verifier` interface. -/
structure VerifierS where
  verify : String → List Nat → List Nat → Option GoError

/-- `jws.JWS`: header, payload and signature, each also in encoded form. -/
structure JWS where
  header : Header
  headerEncoded : List Nat
  payload : List Nat
  payloadEncoded : List Nat
  signature : List Nat
  signatureEncoded : List Nat
deriving DecidableEq, Repr

/-- `JWS.Compact`: `headerEncoded + "." + payloadEncoded + "." +
signatureEncoded`. -/
def JWS.Compact (j : JWS) : List Nat :=
  j.headerEncoded ++ 46 :: (j.payloadEncoded ++ 46 :: j.signatureEncoded)

/-- `jws.Sign`: stamp the header's algorithm from the signer, encode header
and payload, sign `encodedHeader + "." + encodedPayload`, encode the
signature. -/
def Sign (signer : SignerS) (payload : List Nat) (header : Header) :
    Except GoError JWS :=
  let header2 : Header := ⟨signer.alg, header.typ⟩
  let headerEncoded := headerEncode header2
  let payloadEncoded := b64Encode payload
  match signer.sign (headerEncoded ++ 46 :: payloadEncoded) with
  | .error e => .error e
  | .ok signature =>
      .ok ⟨header2, headerEncoded, payload, payloadEncoded, signature, b64Encode signature⟩

/-- `jws.ParseCompact`: split on `.`, require exactly three parts, decode the
header and base64-decode payload and signature.  No signature check. -/
def ParseCompact (compact : List Nat) : Except GoError JWS :=
  match splitOnByte 46 compact with
  | [p0, p1, p2] =>
    match DecodeHeader p0 with
    | .error e => .error (wrapErr ErrInvalidCompactJWS (goMsg e))
    | .ok header =>
      match b64Decode p1 with
      | none => .error (wrapErr ErrInvalidCompactJWS "illegal base64 data")
      | some payload =>
        match b64Decode p2 with
        | none => .error (wrapErr ErrInvalidCompactJWS "illegal base64 data")
        | some signature => .ok ⟨header, p0, payload, p1, signature, p2⟩
  | _ => .error (wrapErr ErrInvalidCompactJWS "invalid number of encoded parts")

/-- `JWS.VerifySignature`: delegate to the verifier over the signing input,
wrapping any failure in `ErrInvalidSignature`. -/
def JWS.VerifySignature (j : JWS) (verifier : VerifierS) : Option GoError :=
  match verifier.verify j.header.alg (j.headerEncoded ++ 46 :: j.payloadEncoded) j.signature with
  | some _ => some (wrapErr ErrInvalidSignature "invalid signature bytes")
  | none => none

/-- `symmetricSignature.Verify`: reject a mismatched algorithm label, then
recompute the MAC and require byte-exact equality. -/
def symmetricSignatureVerify (s : SignerS) (alg : String) (data signature : List Nat) :
    Option GoError :=
  if alg ≠ s.alg then some ErrInvalidSignature
  else
    match s.sign data with
    | .error e => some (wrapErr ErrInvalidSignature (goMsg e))
    | .ok sig => if sig = signature then none else some ErrInvalidSignature

theorem headerEncode_no_dot (h : Header) : ∀ b ∈ headerEncode h, b ≠ 46 :=
  b64Encode_no_dot (marshalHeaderBytes h)

/-- Core of the sign/parse round trip: a successfully signed JWS parses back
from its compact form to exactly itself. -/
theorem ParseCompact_Sign_core (signer : SignerS) (payload : List Nat) (header : Header)
    (jws1 : JWS) (hsign : Sign signer payload header = .ok jws1)
    (hpay : ∀ b ∈ payload, b < 256) (hsig : ∀ b ∈ jws1.signature, b < 256) :
    ParseCompact jws1.Compact = .ok jws1 := by
  unfold Sign at hsign
  simp only at hsign
  cases hs : signer.sign (headerEncode ⟨signer.alg, header.typ⟩ ++ 46 :: b64Encode payload) with
  | error e => rw [hs] at hsign; exact absurd hsign (by simp)
  | ok sig =>
      rw [hs] at hsign
      simp only [Except.ok.injEq] at hsign
      subst hsign
      unfold JWS.Compact ParseCompact
      simp only
      rw [splitOnByte_three 46 _ _ _ (headerEncode_no_dot _)
        (b64Encode_no_dot payload) (b64Encode_no_dot sig)]
      simp only [DecodeHeader_headerEncode, b64Decode_b64Encode payload hpay,
        b64Decode_b64Encode sig (by simpa using hsig)]

/-! ## SHA-2 family (`crypto/sha256`, `crypto/sha512`) and HMAC
(`crypto/hmac`) -/

def rotr32 (n x : Nat) : Nat :=
  x / 2 ^ n + x % 2 ^ n * 2 ^ (32 - n)

def rotr64 (n x : Nat) : Nat :=
  x / 2 ^ n + x % 2 ^ n * 2 ^ (64 - n)

def sha256K : List Nat := [
  1116352408, 1899447441, 3049323471, 3921009573, 961987163, 1508970993, 2453635748, 2870763221,
  3624381080, 310598401, 607225278, 1426881987, 1925078388, 2162078206, 2614888103, 3248222580,
  3835390401, 4022224774, 264347078, 604807628, 770255983, 1249150122, 1555081692, 1996064986,
  2554220882, 2821834349, 2952996808, 3210313671, 3336571891, 3584528711, 113926993, 338241895,
  666307205, 773529912, 1294757372, 1396182291, 1695183700, 1986661051, 2177026350, 2456956037,
  2730485921, 2820302411, 3259730800, 3345764771, 3516065817, 3600352804, 4094571909, 275423344,
  430227734, 506948616, 659060556, 883997877, 958139571, 1322822218, 1537002063, 1747873779,
  1955562222, 2024104815, 2227730452, 2361852424, 2428436474, 2756734187, 3204031479, 3329325298
]

def sha256IV : List Nat := [
  1779033703, 3144134277, 1013904242, 2773480762, 1359893119, 2600822924, 528734635, 1541459225
]

def sha512K : List Nat := [
  4794697086780616226, 8158064640168781261, 13096744586834688815, 16840607885511220156,
  4131703408338449720, 6480981068601479193, 10538285296894168987, 12329834152419229976,
  15566598209576043074, 1334009975649890238, 2608012711638119052, 6128411473006802146,
  8268148722764581231, 9286055187155687089, 11230858885718282805, 13951009754708518548,
  16472876342353939154, 17275323862435702243, 1135362057144423861, 2597628984639134821,
  3308224258029322869, 5365058923640841347, 6679025012923562964, 8573033837759648693,
  10970295158949994411, 12119686244451234320, 12683024718118986047, 13788192230050041572,
  14330467153632333762, 15395433587784984357, 489312712824947311, 1452737877330783856,
  2861767655752347644, 3322285676063803686, 5560940570517711597, 5996557281743188959,
  7280758554555802590, 8532644243296465576, 9350256976987008742, 10552545826968843579,
  11727347734174303076, 12113106623233404929, 14000437183269869457, 14369950271660146224,
  15101387698204529176, 15463397548674623760, 17586052441742319658, 1182934255886127544,
  1847814050463011016, 2177327727835720531, 2830643537854262169, 3796741975233480872,
  4115178125766777443, 5681478168544905931, 6601373596472566643, 7507060721942968483,
  8399075790359081724, 8693463985226723168, 9568029438360202098, 10144078919501101548,
  10430055236837252648, 11840083180663258601, 13761210420658862357, 14299343276471374635,
  14566680578165727644, 15097957966210449927, 16922976911328602910, 17689382322260857208,
  500013540394364858, 748580250866718886, 1242879168328830382, 1977374033974150939,
  2944078676154940804, 3659926193048069267, 4368137639120453308, 4836135668995329356,
  5532061633213252278, 6448918945643986474, 6902733635092675308, 7801388544844847127
]

def sha512IV : List Nat := [
  7640891576956012808, 13503953896175478587, 4354685564936845355, 11912009170470909681,
  5840696475078001361, 11170449401992604703, 2270897969802886507, 6620516959819538809
]

def sha384IV : List Nat := [
  14680500436340154072, 7105036623409894663, 10473403895298186519, 1526699215303891257,
  7436329637833083697, 10282925794625328401, 15784041429090275239, 5167115440072839076
]

def bytesToWords32 : List Nat → List Nat
  | b0 :: b1 :: b2 :: b3 :: rest =>
      (((b0 * 256 + b1) * 256 + b2) * 256 + b3) :: bytesToWords32 rest
  | _ => []

def bytesToWords64 : List Nat → List Nat
  | b0 :: b1 :: b2 :: b3 :: b4 :: b5 :: b6 :: b7 :: rest =>
      (((((((b0 * 256 + b1) * 256 + b2) * 256 + b3) * 256 + b4) * 256 + b5) * 256 + b6) * 256
          + b7) :: bytesToWords64 rest
  | _ => []

def word32Bytes (w : Nat) : List Nat :=
  [w / 16777216 % 256, w / 65536 % 256, w / 256 % 256, w % 256]

def word64Bytes (w : Nat) : List Nat :=
  word32Bytes (w / 4294967296) ++ word32Bytes (w % 4294967296)

def wordsBytes32 : List Nat → List Nat
  | [] => []
  | w :: ws => word32Bytes w ++ wordsBytes32 ws

def wordsBytes64 : List Nat → List Nat
  | [] => []
  | w :: ws => word64Bytes w ++ wordsBytes64 ws

def fnIterate {α : Type} (f : α → α) : Nat → α → α
  | 0, a => a
  | n + 1, a => fnIterate f n (f a)

def sha256ExtendStep (w : List Nat) : List Nat :=
  let n := w.length
  let w15 := w.getD (n - 15) 0
  let w2 := w.getD (n - 2) 0
  let s0 := (rotr32 7 w15) ^^^ (rotr32 18 w15) ^^^ (w15 / 8)
  let s1 := (rotr32 17 w2) ^^^ (rotr32 19 w2) ^^^ (w2 / 1024)
  w ++ [(w.getD (n - 16) 0 + s0 + w.getD (n - 7) 0 + s1) % 4294967296]

def sha512ExtendStep (w : List Nat) : List Nat :=
  let n := w.length
  let w15 := w.getD (n - 15) 0
  let w2 := w.getD (n - 2) 0
  let s0 := (rotr64 1 w15) ^^^ (rotr64 8 w15) ^^^ (w15 / 128)
  let s1 := (rotr64 19 w2) ^^^ (rotr64 61 w2) ^^^ (w2 / 64)
  w ++ [(w.getD (n - 16) 0 + s0 + w.getD (n - 7) 0 + s1) % 18446744073709551616]

structure Sha2State where
  a : Nat
  b : Nat
  c : Nat
  d : Nat
  e : Nat
  f : Nat
  g : Nat
  h : Nat

def sha256Round (st : Sha2State) (k w : Nat) : Sha2State :=
  let s1 := (rotr32 6 st.e) ^^^ (rotr32 11 st.e) ^^^ (rotr32 25 st.e)
  let ch := (st.e &&& st.f) ^^^ ((st.e ^^^ 4294967295) &&& st.g)
  let t1 := (st.h + s1 + ch + k + w) % 4294967296
  let s0 := (rotr32 2 st.a) ^^^ (rotr32 13 st.a) ^^^ (rotr32 22 st.a)
  let maj := (st.a &&& st.b) ^^^ (st.a &&& st.c) ^^^ (st.b &&& st.c)
  let t2 := (s0 + maj) % 4294967296
  ⟨(t1 + t2) % 4294967296, st.a, st.b, st.c, (st.d + t1) % 4294967296, st.e, st.f, st.g⟩

def sha512Round (st : Sha2State) (k w : Nat) : Sha2State :=
  let s1 := (rotr64 14 st.e) ^^^ (rotr64 18 st.e) ^^^ (rotr64 41 st.e)
  let ch := (st.e &&& st.f) ^^^ ((st.e ^^^ 18446744073709551615) &&& st.g)
  let t1 := (st.h + s1 + ch + k + w) % 18446744073709551616
  let s0 := (rotr64 28 st.a) ^^^ (rotr64 34 st.a) ^^^ (rotr64 39 st.a)
  let maj := (st.a &&& st.b) ^^^ (st.a &&& st.c) ^^^ (st.b &&& st.c)
  let t2 := (s0 + maj) % 18446744073709551616
  ⟨(t1 + t2) % 18446744073709551616, st.a, st.b, st.c,
    (st.d + t1) % 18446744073709551616, st.e, st.f, st.g⟩

def stateOfList (hs : List Nat) : Sha2State :=
  ⟨hs.getD 0 0, hs.getD 1 0, hs.getD 2 0, hs.getD 3 0,
    hs.getD 4 0, hs.getD 5 0, hs.getD 6 0, hs.getD 7 0⟩

def addState (m : Nat) (hs : List Nat) (st : Sha2State) : List Nat :=
  [(hs.getD 0 0 + st.a) % m, (hs.getD 1 0 + st.b) % m, (hs.getD 2 0 + st.c) % m,
    (hs.getD 3 0 + st.d) % m, (hs.getD 4 0 + st.e) % m, (hs.getD 5 0 + st.f) % m,
    (hs.getD 6 0 + st.g) % m, (hs.getD 7 0 + st.h) % m]

def sha256Compress (hs block : List Nat) : List Nat :=
  let w := fnIterate sha256ExtendStep 48 (bytesToWords32 block)
  let stF := (sha256K.zip w).foldl (fun st kw => sha256Round st kw.1 kw.2) (stateOfList hs)
  addState 4294967296 hs stF

def sha512Compress (hs block : List Nat) : List Nat :=
  let w := fnIterate sha512ExtendStep 64 (bytesToWords64 block)
  let stF := (sha512K.zip w).foldl (fun st kw => sha512Round st kw.1 kw.2) (stateOfList hs)
  addState 18446744073709551616 hs stF

/-- Merkle–Damgård padding: `0x80`, zeros, big-endian bit length. -/
def shaPad (blockSize lenFieldBytes : Nat) (msg : List Nat) : List Nat :=
  let L := msg.length
  msg ++ 128 :: (List.replicate
      ((blockSize - (L + 1 + lenFieldBytes) % blockSize) % blockSize) 0
    ++ natToBytesPadded (8 * L) lenFieldBytes)

def sha2Blocks (blockSize : Nat) (compress : List Nat → List Nat → List Nat) :
    Nat → List Nat → List Nat → List Nat
  | 0, _, hs => hs
  | fuel + 1, msg, hs =>
    match msg with
    | [] => hs
    | _ => sha2Blocks blockSize compress fuel (msg.drop blockSize)
        (compress hs (msg.take blockSize))

def sha256 (msg : List Nat) : List Nat :=
  let padded := shaPad 64 8 msg
  wordsBytes32 (sha2Blocks 64 sha256Compress padded.length padded sha256IV)

def sha512 (msg : List Nat) : List Nat :=
  let padded := shaPad 128 16 msg
  wordsBytes64 (sha2Blocks 128 sha512Compress padded.length padded sha512IV)

def sha384 (msg : List Nat) : List Nat :=
  let padded := shaPad 128 16 msg
  (wordsBytes64 (sha2Blocks 128 sha512Compress padded.length padded sha384IV)).take 48

/-- A hash function with its block size, modelling the `func() hash.Hash`
fields. -/
structure HashAlg where
  blockSize : Nat
  hash : List Nat → List Nat

def sha256Alg : HashAlg := ⟨64, sha256⟩
def sha384Alg : HashAlg := ⟨128, sha384⟩
def sha512Alg : HashAlg := ⟨128, sha512⟩

/-- `crypto/hmac`: key padded or hashed to block size, inner and outer pads. -/
def hmac (H : HashAlg) (key msg : List Nat) : List Nat :=
  let k0 := if H.blockSize < key.length then H.hash key else key
  let kp := k0 ++ List.replicate (H.blockSize - k0.length) 0
  H.hash ((kp.map (fun b => b ^^^ 92)) ++ H.hash ((kp.map (fun b => b ^^^ 54)) ++ msg))

/-! ## HMAC signature providers (`jws/hmac.go`) -/

/-- `HMACSignerVerifier`: algorithm name, hash choice and shared secret;
`Sign` computes the HMAC and never fails. -/
def hmacSigner (H : HashAlg) (secret : List Nat) (alg : String) : SignerS :=
  ⟨alg, fun data => .ok (hmac H secret data)⟩

/-- `jws.HS256` (the verifying half is `symmetricSignatureVerify`). -/
def HS256 (secret : List Nat) : SignerS := hmacSigner sha256Alg secret "HS256"

/-- `jws.HS384`. -/
def HS384 (secret : List Nat) : SignerS := hmacSigner sha384Alg secret "HS384"

/-- `jws.HS512`. -/
def HS512 (secret : List Nat) : SignerS := hmacSigner sha512Alg secret "HS512"

/-- `jws.SymmetricSignature` as a `Verifier` value. -/
def SymmetricSignature (s : SignerS) : VerifierS :=
  ⟨symmetricSignatureVerify s⟩

/-- `jws.None`: the `"none"` algorithm signs with an empty signature. -/
def NoneSig : SignerS := ⟨"none", fun _ => .ok []⟩

/-! ## RSA PKCS#1 v1.5 (`jws` RSA file, backed by `crypto/rsa`) -/

structure RsaPublicKey where
  n : Nat
  e : Nat
deriving DecidableEq, Repr

/-- `rsa.PublicKey.Size`: modulus length in bytes. -/
def rsaSize (pk : RsaPublicKey) : Nat :=
  (bitLen pk.n + 7) / 8

def powModAux : Nat → Nat → Nat → Nat → Nat
  | 0, _, _, m => 1 % m
  | fuel + 1, b, e, m =>
    if e = 0 then 1 % m
    else
      let h := powModAux fuel (b * b % m) (e / 2) m
      if e % 2 = 1 then h * b % m else h

/-- Modular exponentiation (square and multiply); the fuel bound `e + 1`
dominates the bit length of the exponent. -/
def powMod (b e m : Nat) : Nat :=
  powModAux (e + 1) (b % m) e m

/-- ASN.1 DigestInfo prefixes used by PKCS#1 v1.5 for the SHA-2 family. -/
def sha256DigestInfo : List Nat :=
  [48, 49, 48, 13, 6, 9, 96, 134, 72, 1, 101, 3, 4, 2, 1, 5, 0, 4, 32]

def sha384DigestInfo : List Nat :=
  [48, 65, 48, 13, 6, 9, 96, 134, 72, 1, 101, 3, 4, 2, 2, 5, 0, 4, 48]

def sha512DigestInfo : List Nat :=
  [48, 81, 48, 13, 6, 9, 96, 134, 72, 1, 101, 3, 4, 2, 3, 5, 0, 4, 64]

/-- `rsa.VerifyPKCS1v15` following RFC 8017 §8.2.2 as implemented by
`crypto/rsa`: length checks, `c = sig^e mod n`, and comparison with the
expected `0x00 0x01 0xFF… 0x00 DigestInfo hash` encoding. -/
def rsaVerifyPKCS1v15 (pub : RsaPublicKey) (hashLen : Nat) (digestInfo : List Nat)
    (hashed sig : List Nat) : Option GoError :=
  if hashed.length ≠ hashLen then some (.plain "crypto/rsa: input must be hashed message")
  else
    let tLen := digestInfo.length + hashLen
    let k := rsaSize pub
    if k < tLen + 11 then some (.base "crypto/rsa: verification error")
    else if sig.length ≠ k then some (.base "crypto/rsa: verification error")
    else if pub.e < 2 then some (.plain "crypto/rsa: public exponent too small")
    else if 2147483647 < pub.e then some (.plain "crypto/rsa: public exponent too large")
    else
      let c := bytesToNat sig
      if pub.n ≤ c then some (.base "crypto/rsa: verification error")
      else
        let em := natToBytesPadded (powMod c pub.e pub.n) k
        if em = 0 :: 1 :: (List.replicate (k - tLen - 3) 255 ++ 0 :: (digestInfo ++ hashed))
        then none
        else some (.base "crypto/rsa: verification error")

/-- `rsaVerifier`: bound algorithm name, public key and hash choice. -/
structure RsaVerifier where
  alg : String
  publicKey : RsaPublicKey
  hashLen : Nat
  digestInfo : List Nat
  hf : List Nat → List Nat

/-- `rsaVerifier.Verify`: hash the data and delegate to
`rsa.VerifyPKCS1v15`.  The `alg` parameter is not inspected, mirroring the
source. -/
def RsaVerifier.Verify (r : RsaVerifier) (alg : String) (data signature : List Nat) :
    Option GoError :=
  rsaVerifyPKCS1v15 r.publicKey r.hashLen r.digestInfo (r.hf data) signature

/-- `jws.RS256Verifier`. -/
def RS256Verifier (publicKey : RsaPublicKey) : RsaVerifier :=
  ⟨"RS256", publicKey, 32, sha256DigestInfo, sha256⟩

/-- `jws.RS384Verifier`. -/
def RS384Verifier (publicKey : RsaPublicKey) : RsaVerifier :=
  ⟨"RS384", publicKey, 48, sha384DigestInfo, sha384⟩

/-- `jws.RS512Verifier`. -/
def RS512Verifier (publicKey : RsaPublicKey) : RsaVerifier :=
  ⟨"RS512", publicKey, 64, sha512DigestInfo, sha512⟩

/-! ## ECDSA (`jws` ECDSA file, backed by `crypto/ecdsa`) -/

/-- A short-Weierstrass curve with its base point, order and bit size
(`elliptic.CurveParams`). -/
structure EcdsaCurve where
  p : Nat
  a : Nat
  b : Nat
  gx : Nat
  gy : Nat
  n : Nat
  bitSize : Nat
deriving DecidableEq, Repr

/-- Modular inverse by Fermat's little theorem (the moduli used are prime). -/
def pinv (p x : Nat) : Nat :=
  powMod x (p - 2) p

/-- Affine point addition; `none` is the point at infinity. -/
def ecAdd (C : EcdsaCurve) : Option (Nat × Nat) → Option (Nat × Nat) → Option (Nat × Nat)
  | none, q => q
  | some pt, none => some pt
  | some (x1, y1), some (x2, y2) =>
    if x1 % C.p = x2 % C.p then
      if (y1 + y2) % C.p = 0 then none
      else
        let l := (3 * x1 * x1 + C.a) % C.p * pinv C.p (2 * y1 % C.p) % C.p
        let x3 := (l * l + 2 * (C.p - x1 % C.p)) % C.p
        some (x3, (l * ((x1 % C.p + (C.p - x3)) % C.p) + (C.p - y1 % C.p)) % C.p)
    else
      let l := (y2 % C.p + (C.p - y1 % C.p)) % C.p *
        pinv C.p ((x2 % C.p + (C.p - x1 % C.p)) % C.p) % C.p
      let x3 := (l * l + (C.p - x1 % C.p) + (C.p - x2 % C.p)) % C.p
      some (x3, (l * ((x1 % C.p + (C.p - x3)) % C.p) + (C.p - y1 % C.p)) % C.p)

def scalarMulAux (C : EcdsaCurve) : Nat → Nat → Option (Nat × Nat) → Option (Nat × Nat)
  | 0, _, _ => none
  | fuel + 1, k, pt =>
    if k = 0 then none
    else
      let half := scalarMulAux C fuel (k / 2) (ecAdd C pt pt)
      if k % 2 = 1 then ecAdd C half pt else half

/-- Scalar multiplication by double-and-add; the fuel bound `k + 1`
dominates the bit length of the scalar. -/
def scalarMul (C : EcdsaCurve) (k : Nat) (pt : Option (Nat × Nat)) : Option (Nat × Nat) :=
  scalarMulAux C (k + 1) k pt

/-- `crypto/ecdsa`'s `hashToInt`: truncate the hash to the bit length of the
curve order. -/
def hashToInt (C : EcdsaCurve) (hash : List Nat) : Nat :=
  let orderBits := bitLen C.n
  let orderBytes := (orderBits + 7) / 8
  let h := hash.take orderBytes
  let v := bytesToNat h
  if orderBits < h.length * 8 then v / 2 ^ (h.length * 8 - orderBits) else v

/-- `ecdsa.Verify` on an explicit `(r, s)` pair. -/
def ecdsaVerifyRS (C : EcdsaCurve) (pub : Nat × Nat) (e r s : Nat) : Bool :=
  if r = 0 || C.n ≤ r || s = 0 || C.n ≤ s then false
  else
    let w := pinv C.n s
    let u1 := e * w % C.n
    let u2 := r * w % C.n
    match ecAdd C (scalarMul C u1 (some (C.gx, C.gy))) (scalarMul C u2 (some pub)) with
    | none => false
    | some (x, _) => x % C.n = r

structure EcdsaPublicKey where
  curve : EcdsaCurve
  x : Nat
  y : Nat
deriving DecidableEq, Repr

structure EcdsaPrivateKey where
  curve : EcdsaCurve
  d : Nat
deriving DecidableEq, Repr

/-- `ecdsaSigner`: bound algorithm, private key, hash choice and curve bit
size. -/
structure EcdsaSigner where
  alg : String
  privateKey : EcdsaPrivateKey
  hf : List Nat → List Nat
  keyBitSize : Nat

/-- The byte width `ecdsaSigner.Sign` computes:
`keyBitSize/8`, plus one when the bit size is not a byte multiple. -/
def ecdsaKeyBytes (keyBitSize : Nat) : Nat :=
  keyBitSize / 8 + (if keyBitSize % 8 > 0 then 1 else 0)

/-- The serialization step of `ecdsaSigner.Sign`, with the `(r, s)` pair
produced by `ecdsa.Sign` passed explicitly (the nonce is drawn from
`rand.Reader` in Go): both values big-endian, left-zero-padded to the
curve's byte width, concatenated. -/
def EcdsaSigner.SignWith (e : EcdsaSigner) (r s : Nat) : List Nat :=
  let keyBytes := ecdsaKeyBytes e.keyBitSize
  (List.replicate (keyBytes - (natToBytes r).length) 0 ++ natToBytes r) ++
    (List.replicate (keyBytes - (natToBytes s).length) 0 ++ natToBytes s)

/-- `ecdsaVerifier`: bound algorithm, public key, hash choice and curve bit
size. -/
structure EcdsaVerifier where
  alg : String
  publicKey : EcdsaPublicKey
  hf : List Nat → List Nat
  keyBitSize : Nat

/-- `ecdsaVerifier.Verify`: reject a mismatched algorithm label, split the
buffer at half its length into `r` and `s`, hash and verify.  There is no
check that the buffer length equals `2 × keyBytes`. -/
def EcdsaVerifier.Verify (e : EcdsaVerifier) (alg : String) (data signature : List Nat) :
    Option GoError :=
  if alg ≠ e.alg then some (wrapErr ErrInvalidSignature "invalid algorithm")
  else
    let n := signature.length / 2
    let r := bytesToNat (signature.take n)
    let s := bytesToNat (signature.drop n)
    if ecdsaVerifyRS e.publicKey.curve (e.publicKey.x, e.publicKey.y)
        (hashToInt e.publicKey.curve (e.hf data)) r s
    then none
    else some ErrInvalidSignature

/-- `jws.ES256Signer`: constructor-time curve bit-size check. -/
def ES256Signer (privateKey : EcdsaPrivateKey) : Except GoError EcdsaSigner :=
  if privateKey.curve.bitSize ≠ 256 then
    .error (.plain "invalid key: must use elliptic curve key with curve bit size of 256")
  else .ok ⟨"ES256", privateKey, sha256, 256⟩

/-- `jws.ES384Signer`. -/
def ES384Signer (privateKey : EcdsaPrivateKey) : Except GoError EcdsaSigner :=
  if privateKey.curve.bitSize ≠ 384 then
    .error (.plain "invalid key: must use elliptic curve key with curve bit size of 384")
  else .ok ⟨"ES384", privateKey, sha384, 384⟩

/-- `jws.ES512Signer` (curve bit size 521). -/
def ES512Signer (privateKey : EcdsaPrivateKey) : Except GoError EcdsaSigner :=
  if privateKey.curve.bitSize ≠ 521 then
    .error (.plain "invalid key: must use elliptic curve key with curve bit size of 521")
  else .ok ⟨"ES512", privateKey, sha512, 521⟩

/-- `jws.ES256Verifier`. -/
def ES256Verifier (publicKey : EcdsaPublicKey) : Except GoError EcdsaVerifier :=
  if publicKey.curve.bitSize ≠ 256 then
    .error (.plain "invalid key: must use elliptic curve key with curve bit size of 256")
  else .ok ⟨"ES256", publicKey, sha256, 256⟩

/-- `jws.ES384Verifier`. -/
def ES384Verifier (publicKey : EcdsaPublicKey) : Except GoError EcdsaVerifier :=
  if publicKey.curve.bitSize ≠ 384 then
    .error (.plain "invalid key: must use elliptic curve key with curve bit size of 384")
  else .ok ⟨"ES384", publicKey, sha384, 384⟩

/-- `jws.ES512Verifier` (curve bit size 521). -/
def ES512Verifier (publicKey : EcdsaPublicKey) : Except GoError EcdsaVerifier :=
  if publicKey.curve.bitSize ≠ 521 then
    .error (.plain "invalid key: must use elliptic curve key with curve bit size of 521")
  else .ok ⟨"ES512", publicKey, sha512, 521⟩

/-! ## JWK key model (`jwk` package) -/

/-- `jwk.KeyDescription`: the shared optional metadata.  Note the JSON tags:
`use,omitempty`, `ops,omitempty`, `alg,omitempty`, `kid,omitempty` — the
operations tag is `ops`, while the package constant `ParamKeyOps` is
`"key_ops"`. -/
structure KeyDescription where
  use : String
  ops : List String
  alg : String
  kid : String
deriving DecidableEq, Repr

/-- `jwk.SymmetricKey` (`kty: "oct"`). -/
structure SymmetricKey where
  desc : KeyDescription
  bytes : List Nat
deriving DecidableEq, Repr

/-- `jwk.RSAPublicKey`. -/
structure RSAPublicKeyJwk where
  desc : KeyDescription
  key : RsaPublicKey
deriving DecidableEq, Repr

/-- `jwk.ECDSAPublicKey`; the curve is kept by its JOSE name, as used by the
`supportedCurves` table. -/
structure ECDSAPublicKeyJwk where
  desc : KeyDescription
  curveName : String
  x : Nat
  y : Nat
deriving DecidableEq, Repr

/-- The `jwk.Key` union. -/
inductive Key where
  | ec (k : ECDSAPublicKeyJwk)
  | rsa (k : RSAPublicKeyJwk)
  | oct (k : SymmetricKey)
deriving DecidableEq, Repr

/-- An ASCII byte sequence as a string (base64 text inside JSON values). -/
def asciiString (bs : List Nat) : String :=
  ⟨bs.map Char.ofNat⟩

/-- The JSON members contributed by the embedded `KeyDescription`
(`omitempty` semantics, struct field order). -/
def descMembers (d : KeyDescription) : List (String × Json) :=
  (if d.use = "" then [] else [("use", .str d.use)]) ++
  (if d.ops = [] then [] else [("ops", .arr (d.ops.map Json.str))]) ++
  (if d.alg = "" then [] else [("alg", .str d.alg)]) ++
  (if d.kid = "" then [] else [("kid", .str d.kid)])

/-- `SymmetricKey.MarshalJSON` as a JSON value: description members, then
`kty` and the base64url secret under `k`. -/
def symmetricKeyJson (k : SymmetricKey) : Json :=
  .obj (descMembers k.desc ++
    [("kty", .str "oct"), ("k", .str (asciiString (b64Encode k.bytes)))])

/-- `RSAPublicKey.MarshalJSON` as a JSON value. -/
def rsaKeyJson (k : RSAPublicKeyJwk) : Json :=
  .obj (descMembers k.desc ++
    [("kty", .str "RSA"),
     ("n", .str (asciiString (b64Encode (natToBytes k.key.n)))),
     ("e", .str (asciiString (b64Encode (natToBytes k.key.e))))])

/-- `ECDSAPublicKey.MarshalJSON` as a JSON value. -/
def ecKeyJson (k : ECDSAPublicKeyJwk) : Json :=
  .obj (descMembers k.desc ++
    [("kty", .str "EC"), ("crv", .str k.curveName),
     ("x", .str (asciiString (b64Encode (natToBytes k.x)))),
     ("y", .str (asciiString (b64Encode (natToBytes k.y))))])

def keyJson : Key → Json
  | .ec k => ecKeyJson k
  | .rsa k => rsaKeyJson k
  | .oct k => symmetricKeyJson k

/-- `jwk.MarshalKey`: `json.Marshal` of the key. -/
def MarshalKey (k : Key) : List Nat :=
  jsonBytes (keyJson k)

/-- Go-style struct-field extraction from object members: the last member
whose name case-insensitively matches wins. -/
def jsonField (ms : List (String × Json)) (name : String) : Option Json :=
  ((ms.filter (fun m => eqFoldAscii m.1 name)).map (fun m => m.2)).getLast?

/-- A string-typed struct field: absent means the zero value. -/
def fieldString (ms : List (String × Json)) (name : String) : Except GoError String :=
  match jsonField ms name with
  | none => .ok ""
  | some (.str s) => .ok s
  | some _ => .error (.plain ("cannot unmarshal value into field " ++ name))

/-- A `[]string`-typed struct field: absent or `null` means nil. -/
def fieldStringList (ms : List (String × Json)) (name : String) :
    Except GoError (List String) :=
  match jsonField ms name with
  | none => .ok []
  | some .null => .ok []
  | some (.arr xs) =>
    xs.foldr
      (fun x acc =>
        match x, acc with
        | .str s, .ok ss => .ok (s :: ss)
        | _, .error e => .error e
        | _, _ => .error (.plain ("cannot unmarshal element of " ++ name)))
      (.ok [])
  | some _ => .error (.plain ("cannot unmarshal value into field " ++ name))

/-- Decoding the embedded `KeyDescription` fields (tags `use`, `ops`, `alg`,
`kid`). -/
def decodeDesc (ms : List (String × Json)) : Except GoError KeyDescription :=
  match fieldString ms "use" with
  | .error e => .error e
  | .ok use =>
    match fieldStringList ms "ops" with
    | .error e => .error e
    | .ok ops =>
      match fieldString ms "alg" with
      | .error e => .error e
      | .ok alg =>
        match fieldString ms "kid" with
        | .error e => .error e
        | .ok kid => .ok ⟨use, ops, alg, kid⟩

/-- `SymmetricKey.UnmarshalJSON` on a JSON value (no `kty` check in the
source). -/
def symmetricKeyUnmarshal (j : Json) : Except GoError SymmetricKey :=
  match j with
  | .obj ms =>
    match decodeDesc ms with
    | .error e => .error e
    | .ok desc =>
      match fieldString ms "k" with
      | .error e => .error e
      | .ok kStr =>
        match b64Decode (strBytes kStr) with
        | none => .error (.plain "failed to decode oct key bytes")
        | some bytes => .ok ⟨desc, bytes⟩
  | _ => .error (.plain "cannot unmarshal value into SymmetricKey")

/-- `RSAPublicKey.UnmarshalJSON` on a JSON value. -/
def rsaKeyUnmarshal (j : Json) : Except GoError RSAPublicKeyJwk :=
  match j with
  | .obj ms =>
    match decodeDesc ms with
    | .error e => .error e
    | .ok desc =>
      match fieldString ms "kty" with
      | .error e => .error e
      | .ok kty =>
        if kty ≠ "RSA" then .error (.plain ("invalid key type: " ++ kty))
        else
          match fieldString ms "n" with
          | .error e => .error e
          | .ok nStr =>
            match b64Decode (strBytes nStr) with
            | none => .error (.plain "invalid x value")
            | some nB =>
              match fieldString ms "e" with
              | .error e => .error e
              | .ok eStr =>
                match b64Decode (strBytes eStr) with
                | none => .error (.plain "invalid y value")
                | some eB => .ok ⟨desc, ⟨bytesToNat nB, bytesToNat eB⟩⟩
  | _ => .error (.plain "cannot unmarshal value into RSAPublicKey")

/-- The names in `supportedCurves`. -/
def supportedCurveNames : List String :=
  ["P-256", "P-384", "P-521"]

/-- `ECDSAPublicKey.UnmarshalJSON` on a JSON value. -/
def ecKeyUnmarshal (j : Json) : Except GoError ECDSAPublicKeyJwk :=
  match j with
  | .obj ms =>
    match decodeDesc ms with
    | .error e => .error e
    | .ok desc =>
      match fieldString ms "kty" with
      | .error e => .error e
      | .ok kty =>
        if kty ≠ "EC" then .error (.plain ("invalid key type: " ++ kty))
        else
          match fieldString ms "crv" with
          | .error e => .error e
          | .ok crv =>
            if ¬supportedCurveNames.contains crv then
              .error (.plain ("invalid EC curve: " ++ crv))
            else
              match fieldString ms "x" with
              | .error e => .error e
              | .ok xStr =>
                match b64Decode (strBytes xStr) with
                | none => .error (.plain "invalid x value")
                | some xB =>
                  match fieldString ms "y" with
                  | .error e => .error e
                  | .ok yStr =>
                    match b64Decode (strBytes yStr) with
                    | none => .error (.plain "invalid y value")
                    | some yB => .ok ⟨desc, crv, bytesToNat xB, bytesToNat yB⟩
  | _ => .error (.plain "cannot unmarshal value into ECDSAPublicKey")

/-- The `keyWrapper` decode of `UnmarshalKey`: read the `kty` member of an
object (absent means the zero value `""`). -/
def ktyOf (j : Json) : Except GoError String :=
  match j with
  | .obj ms => fieldString ms "kty"
  | .null => .ok ""
  | _ => .error (.plain "cannot unmarshal value into keyWrapper")

/-- `jwk.UnmarshalKey` on a parsed JSON value: dispatch on the `kty`
discriminant, with an explicit unsupported-kty error for anything not
`EC`/`RSA`/`oct`. -/
def unmarshalKeyVal (j : Json) : Except GoError Key :=
  match ktyOf j with
  | .error e => .error e
  | .ok s =>
    if s = "EC" then
      match ecKeyUnmarshal j with
      | .error e => .error e
      | .ok k => .ok (.ec k)
    else if s = "RSA" then
      match rsaKeyUnmarshal j with
      | .error e => .error e
      | .ok k => .ok (.rsa k)
    else if s = "oct" then
      match symmetricKeyUnmarshal j with
      | .error e => .error e
      | .ok k => .ok (.oct k)
    else .error (.plain ("unsupported kty: " ++ s))

/-- `jwk.UnmarshalKey` on bytes. -/
def UnmarshalKey (data : List Nat) : Except GoError Key :=
  match jsonParse data with
  | none => .error (.plain "invalid character in JSON")
  | some j => unmarshalKeyVal j

/-- The element loop of `Set.UnmarshalJSON`: decode each key through the
discriminant dispatch, aborting at the first failure. -/
def decodeKeyList : List Json → Except GoError (List Key)
  | [] => .ok []
  | j :: rest =>
    match unmarshalKeyVal j with
    | .error e => .error e
    | .ok k =>
      match decodeKeyList rest with
      | .error e => .error e
      | .ok ks => .ok (k :: ks)

/-- `Set.UnmarshalJSON` on a parsed JSON value: read the `keys` array and
decode every element. -/
def setUnmarshalVal (j : Json) : Except GoError (List Key) :=
  match j with
  | .obj ms =>
    match jsonField ms "keys" with
    | none => .ok []
    | some .null => .ok []
    | some (.arr xs) => decodeKeyList xs
    | some _ => .error (.plain "cannot unmarshal value into keys")
  | .null => .ok []
  | _ => .error (.plain "cannot unmarshal value into setWrapper")

/-- `Set.Has`. -/
def setHas (s : List Key) (f : Key → Bool) : Bool :=
  s.any f

/-- `Set.First`. -/
def setFirst (s : List Key) (f : Key → Bool) : Option Key :=
  s.find? f

/-! ## JWT claims and verification pipeline (`jwt` package) -/

/-- `jwt.ErrInvalidToken`. -/
def ErrInvalidToken : GoError := .base "invalid token"

/-- `jwt.ErrVerificationFailed`. -/
def ErrVerificationFailed : GoError := .base "verification failed"

/-- `jwt.Claims`: a string-keyed map of decoded JSON values, modelled as an
association list with unique keys (as produced by `mapOfMembers`). -/
def Claims := List (String × Json)

/-- Map lookup. -/
def claimsGet (c : Claims) (claim : String) : Option Json :=
  List.lookup claim c

/-- Assignment into a string-keyed map (update or append). -/
def assocSet : List (String × Json) → String → Json → List (String × Json)
  | [], k, v => [(k, v)]
  | (k2, v2) :: rest, k, v =>
    if k2 = k then (k2, v) :: rest else (k2, v2) :: assocSet rest k v

/-- `json.Unmarshal` into a Go map: later duplicate keys overwrite earlier
ones. -/
def mapOfMembers (ms : List (String × Json)) : List (String × Json) :=
  ms.foldl (fun acc m => assocSet acc m.1 m.2) []

/-- `Claims.GetString`: absent means the empty string; a non-string value is
an error. -/
def GetString (c : Claims) (claim : String) : Except GoError String :=
  match claimsGet c claim with
  | none => .ok ""
  | some (.str s) => .ok s
  | some _ => .error (.plain ("claim value for " ++ claim ++ " is not of type string"))

/-- `Claims.GetInt`: absent means 0; a non-numeric value is an error.  (The
Go `int64`/`float64`/`json.Number` cases all carry the numeric value, which
the embedding represents directly.) -/
def GetInt (c : Claims) (claim : String) : Except GoError Int :=
  match claimsGet c claim with
  | none => .ok 0
  | some (.num n) => .ok n
  | some _ => .error (.plain ("claim value for " ++ claim ++ " is not of type number"))

/-- `Claims.GetTime`.  `time.Time` is modelled as `Option Int`: `none` is
the zero `time.Time{}` and `some v` is `time.Unix(v, 0)`.  A zero numeric
claim yields the zero time with no error. -/
def GetTime (c : Claims) (claim : String) : Except GoError (Option Int) :=
  match GetInt c claim with
  | .error e => .error e
  | .ok v => if v = 0 then .ok none else .ok (some v)

/-- `Claims.GetStringSlice`: absent means nil; a bare string becomes a
singleton; an array must contain only strings. -/
def GetStringSlice (c : Claims) (claim : String) : Except GoError (List String) :=
  match claimsGet c claim with
  | none => .ok []
  | some (.str s) => .ok [s]
  | some (.arr xs) =>
    xs.foldr
      (fun x acc =>
        match x, acc with
        | .str s, .ok ss => .ok (s :: ss)
        | _, .error e => .error e
        | _, _ => .error (.plain ("claim value for " ++ claim ++ " contains non-string element")))
      (.ok [])
  | some _ =>
      .error (.plain ("claim value for " ++ claim ++ " is not a string or slice of strings"))

/-- `jwt.Token`: the underlying JWS plus the claims decoded from its
payload. -/
structure Token where
  jws : JWS
  claims : Claims

/-- `Token.Verify`: apply the verifiers in order, returning the first
failure wrapped with `ErrVerificationFailed`; later verifiers are not
invoked. -/
def Token.Verify (t : Token) : List (Token → Option GoError) → Option GoError
  | [] => none
  | v :: rest =>
    match v t with
    | some e => some (wrapErr ErrVerificationFailed (goMsg e))
    | none => t.Verify rest

/-- `jwt.Signature`: delegate to the envelope's signature verification. -/
def Signature (signatureVerifier : VerifierS) : Token → Option GoError := fun token =>
  match token.jws.VerifySignature signatureVerifier with
  | some e => some (wrapErr ErrVerificationFailed (goMsg e))
  | none => none

/-- `jwt.Issuer`: the `iss` claim must read as a string equal to the
expected issuer. -/
def Issuer (issuer : String) : Token → Option GoError := fun token =>
  match GetString token.claims "iss" with
  | .error e => some (.plain ("invalid issuer: " ++ goMsg e))
  | .ok iss => if iss ≠ issuer then some (.plain ("invalid issuer: " ++ iss)) else none

/-- `jwt.Audience`: the `aud` claim, coerced to a string list, must contain
the expected audience. -/
def Audience (audience : String) : Token → Option GoError := fun token =>
  match GetStringSlice token.claims "aud" with
  | .error e => some (.plain ("error verifying aud: " ++ goMsg e))
  | .ok aud =>
    if aud.length = 0 then some (.plain "token is missing aud claim")
    else if aud.contains audience then none
    else some (.plain ("missing required audience: " ++ audience))

/-- `jwt.NotBefore` with the clock passed explicitly (nanoseconds since the
epoch); the leeway is a `time.Duration` in nanoseconds. -/
def NotBefore (leeway nowNs : Int) : Token → Option GoError := fun token =>
  match GetTime token.claims "nbf" with
  | .error e => some (.plain ("error verifying nbf: " ++ goMsg e))
  | .ok none => some (.plain "token is missing nbf")
  | .ok (some nbf) =>
    if leeway < nbf * 1000000000 - nowNs then some (.plain "token used before nbf")
    else none

/-- `jwt.ExpirationTime` with an explicit clock. -/
def ExpirationTime (leeway nowNs : Int) : Token → Option GoError := fun token =>
  match GetTime token.claims "exp" with
  | .error e => some (.plain ("verification of exp failed: " ++ goMsg e))
  | .ok none => some (.plain "token is missing exp")
  | .ok (some exp) =>
    if leeway < nowNs - exp * 1000000000 then some (.plain "token used after exp")
    else none

/-- `jwt.MaxAge` with an explicit clock. -/
def MaxAge (maxAge nowNs : Int) : Token → Option GoError := fun token =>
  match GetTime token.claims "iat" with
  | .error e => some (.plain ("verification of iat failed: " ++ goMsg e))
  | .ok none => some (.plain "token is missing iat")
  | .ok (some iat) =>
    if iat * 1000000000 < nowNs - maxAge then some (.plain "token too old")
    else none

/-- Insertion of a member into a key-sorted member list. -/
def insertByKey (m : String × Json) : List (String × Json) → List (String × Json)
  | [] => [m]
  | x :: xs => if m.1 < x.1 then m :: x :: xs else x :: insertByKey m xs

/-- Sorting members by key, as `json.Marshal` does for Go maps. -/
def sortByKey : List (String × Json) → List (String × Json)
  | [] => []
  | m :: ms => insertByKey m (sortByKey ms)

mutual

/-- Normalization a JSON document undergoes through a Go
`map[string]any` decode/encode round trip: duplicate members collapse
(last wins) and members are sorted at every level. -/
def normJson : Json → Json
  | .obj ms => .obj (sortByKey (mapOfMembers (normMembers ms)))
  | .arr xs => .arr (normList xs)
  | v => v

def normList : List Json → List Json
  | [] => []
  | x :: xs => normJson x :: normList xs

def normMembers : List (String × Json) → List (String × Json)
  | [] => []
  | (k, v) :: ms => (k, normJson v) :: normMembers ms

end

/-- `jwt.UnmarshalClaims`: the payload must decode as a JSON object (or
`null`, which leaves the map nil). -/
def UnmarshalClaims (data : List Nat) : Except GoError Claims :=
  match jsonParse data with
  | none => .error (.plain "invalid character in JSON")
  | some .null => .ok []
  | some (.obj ms) => .ok (mapOfMembers ms)
  | some _ => .error (.plain "cannot unmarshal value into Claims")

/-- `jwt.patchAudClaim`: if the payload is an object whose `aud` member is a
bare string, wrap it into a singleton list and re-marshal; otherwise return
the input unchanged (decode errors resurface later). -/
def patchAudClaim (input : List Nat) : List Nat :=
  match jsonParse input with
  | none => input
  | some (.obj ms) =>
    let claims := mapOfMembers ms
    match List.lookup "aud" claims with
    | none => input
    | some v =>
      let claims2 :=
        match v with
        | .str s => assocSet claims "aud" (.arr [.str s])
        | _ => claims
      jsonBytes (normJson (.obj claims2))
  | some _ => input

/-- `jwt.Decode`: parse structurally, require the `typ` header to be
exactly `"JWT"`, then decode the claims; every failure wraps
`ErrInvalidToken`. -/
def Decode (compact : List Nat) : Except GoError Token :=
  match ParseCompact compact with
  | .error e => .error (wrapErr ErrInvalidToken (goMsg e))
  | .ok sig =>
    if sig.header.typ ≠ "JWT" then
      .error (wrapErr ErrInvalidToken ("token is not of type JWT: found " ++ sig.header.typ))
    else
      match UnmarshalClaims (patchAudClaim sig.payload) with
      | .error e =>
          .error (wrapErr ErrInvalidToken ("payload is not a valid JSON object: " ++ goMsg e))
      | .ok claims => .ok ⟨sig, claims⟩

/-- `jwt.SignSerialized`: decode the claims from the payload, then sign a
JWS whose header carries the `JWT` type. -/
def SignSerialized (signer : SignerS) (payload : List Nat) : Except GoError Token :=
  match UnmarshalClaims (patchAudClaim payload) with
  | .error e => .error (.plain ("Invalid JWT payload: " ++ goMsg e))
  | .ok claims =>
    match Sign signer payload ⟨"", "JWT"⟩ with
    | .error e => .error e
    | .ok j => .ok ⟨j, claims⟩

/-! ## Claim theorems -/

set_option maxRecDepth 20000

/-- C3: For every signer, payload byte buffer, and header, when Sign
succeeds, ParseCompact applied to the resulting JWS's Compact() string
succeeds and yields a JWS with an identical header (algorithm and type), an
identical payload byte buffer, and an identical signature byte buffer.  (The
byte-range hypotheses are the `[]byte` value-range invariant.)  Stated as
the full round trip `ParseCompact (Compact jws) = ok jws`, which subsumes
the componentwise equalities. -/
theorem claim_C3 (signer : SignerS) (payload : List Nat) (header : Header)
    (jws1 : JWS) (hsign : Sign signer payload header = .ok jws1)
    (hpay : ∀ b ∈ payload, b < 256) (hsig : ∀ b ∈ jws1.signature, b < 256) :
    ParseCompact jws1.Compact = .ok jws1 ∧
      jws1.header = ⟨signer.alg, header.typ⟩ := by
  refine ⟨ParseCompact_Sign_core signer payload header jws1 hsign hpay hsig, ?_⟩
  unfold Sign at hsign
  simp only at hsign
  cases hs : signer.sign (headerEncode ⟨signer.alg, header.typ⟩ ++ 46 :: b64Encode payload) with
  | error e => rw [hs] at hsign; exact absurd hsign (by simp)
  | ok sig =>
      rw [hs] at hsign
      simp only [Except.ok.injEq] at hsign
      subst hsign
      rfl

def jC3 : JWS :=
  ⟨⟨"none", ""⟩, headerEncode ⟨"none", ""⟩, [104, 105], b64Encode [104, 105], [], []⟩

theorem claim_C3_witness :
    Sign NoneSig [104, 105] ⟨"", ""⟩ = .ok jC3 ∧ ParseCompact jC3.Compact = .ok jC3 :=
  ⟨rfl, (claim_C3 NoneSig [104, 105] ⟨"", ""⟩ jC3 rfl (by decide) (by decide)).1⟩

/-- C5: Token.Verify applies the verifiers in the order given and returns at
the first verifier that fails, wrapping the error so it matches
ErrVerificationFailed while preserving the failing verifier's message (as
the suffix of the wrapped message); verifiers after the first failure are
not invoked (the result does not depend on them), and Verify returns nil
iff every verifier returns nil. -/
theorem claim_C5 (t : Token) (vs1 vs2 : List (Token → Option GoError))
    (v : Token → Option GoError) (e : GoError)
    (h1 : ∀ w ∈ vs1, w t = none) (hv : v t = some e) :
    (t.Verify (vs1 ++ v :: vs2) = some (wrapErr ErrVerificationFailed (goMsg e)) ∧
      goErrorIs (wrapErr ErrVerificationFailed (goMsg e)) ErrVerificationFailed = true ∧
      goMsg (wrapErr ErrVerificationFailed (goMsg e)) = "verification failed: " ++ goMsg e) ∧
    ∀ ws : List (Token → Option GoError), t.Verify ws = none ↔ ∀ w ∈ ws, w t = none := by
  constructor
  · refine ⟨?_, goErrorIs_wrapErr _ _, rfl⟩
    induction vs1 with
    | nil => simp [Token.Verify, hv]
    | cons w ws ih =>
        have hw : w t = none := h1 w (by simp)
        simp only [List.cons_append, Token.Verify, hw]
        exact ih (fun x hx => h1 x (by simp [hx]))
  · intro ws
    induction ws with
    | nil => simp [Token.Verify]
    | cons w ws ih =>
        simp only [Token.Verify]
        cases hw : w t with
        | some e2 => simp [hw]
        | none => simpa [hw] using ih

def tC5 : Token := ⟨⟨⟨"", ""⟩, [], [], [], [], []⟩, []⟩

theorem claim_C5_witness :
    (tC5.Verify ([] ++ (fun _ => some (.plain "boom")) :: [fun _ => none])
        = some (wrapErr ErrVerificationFailed (goMsg (.plain "boom"))) ∧
      goErrorIs (wrapErr ErrVerificationFailed (goMsg (.plain "boom")))
        ErrVerificationFailed = true ∧
      goMsg (wrapErr ErrVerificationFailed (goMsg (.plain "boom")))
        = "verification failed: " ++ goMsg (.plain "boom")) ∧
    ∀ ws : List (Token → Option GoError), tC5.Verify ws = none ↔ ∀ w ∈ ws, w tC5 = none :=
  claim_C5 tC5 [] [fun _ => none] (fun _ => some (.plain "boom")) (.plain "boom")
    (by simp) rfl

/-! C1: the RSA verifier ignores the algorithm label. -/

/-- The PKCS#1 v1.5 encoded message for SHA-256 of the empty message at a
64-byte modulus. -/
def c1EM : List Nat :=
  0 :: 1 :: (List.replicate 10 255 ++ 0 :: (sha256DigestInfo ++ sha256 []))

/-- A signature value whose cube exceeds the encoded message by exactly the
modulus. -/
def c1S : Nat := 2 ^ 169

/-- A 507-bit odd modulus with `c1S ^ 3 mod c1N = EM`, so `c1Sig` is a valid
RS256 signature of the empty message under `(c1N, 3)`. -/
def c1N : Nat := c1S ^ 3 - bytesToNat c1EM

def c1Sig : List Nat := natToBytesPadded c1S 64

def c1Verifier : RsaVerifier := RS256Verifier ⟨c1N, 3⟩

/-- C1 counterexample: an RS256-bound verifier accepts (returns nil for) a
valid RSA signature presented under the label "HS256" — the claim demands a
non-nil error for every mismatched label, including for RSA verifiers. -/
theorem claim_C1_counterexample :
    c1Verifier.Verify "HS256" [] c1Sig = none ∧
      c1Verifier.Verify "RS256" [] c1Sig = none ∧ ("HS256" : String) ≠ "RS256" := by
  refine ⟨by decide, by decide, by decide⟩

/-- C1 amended: symmetric (HMAC) and ECDSA verifiers reject a mismatched
algorithm label with a non-nil error, but the RSA verifier ignores the
label entirely: its result is the same for every label. -/
theorem claim_C1_amended :
    (∀ (s : SignerS) (alg : String) (data sig : List Nat), alg ≠ s.alg →
      symmetricSignatureVerify s alg data sig = some ErrInvalidSignature) ∧
    (∀ (v : EcdsaVerifier) (alg : String) (data sig : List Nat), alg ≠ v.alg →
      v.Verify alg data sig = some (wrapErr ErrInvalidSignature "invalid algorithm")) ∧
    (∀ (r : RsaVerifier) (a1 a2 : String) (data sig : List Nat),
      r.Verify a1 data sig = r.Verify a2 data sig) := by
  refine ⟨?_, ?_, ?_⟩
  · intro s alg data sig h
    simp [symmetricSignatureVerify, h]
  · intro v alg data sig h
    simp [EcdsaVerifier.Verify, h]
  · intro r a1 a2 data sig
    rfl

def vC1ec : EcdsaVerifier := ⟨"ES256", ⟨⟨5, 2, 3, 1, 1, 5, 256⟩, 1, 1⟩, sha256, 256⟩

theorem claim_C1_amended_witness :
    symmetricSignatureVerify (HS256 [1]) "RS256" [2] [3] = some ErrInvalidSignature ∧
    vC1ec.Verify "HS256" [2] [3] = some (wrapErr ErrInvalidSignature "invalid algorithm") ∧
    c1Verifier.Verify "HS256" [] c1Sig = c1Verifier.Verify "RS256" [] c1Sig :=
  ⟨claim_C1_amended.1 (HS256 [1]) "RS256" [2] [3] (by decide),
   claim_C1_amended.2.1 vC1ec "HS256" [2] [3] (by decide),
   claim_C1_amended.2.2 c1Verifier "HS256" "RS256" [] c1Sig⟩

theorem natToBytesAux_length :
    ∀ (fuel n k : Nat), n < 256 ^ k → n ≤ fuel → (natToBytesAux fuel n).length ≤ k := by
  intro fuel
  induction fuel with
  | zero => intro n k _ _; simp [natToBytesAux]
  | succ f ih =>
      intro n k hk hf
      by_cases hn : n = 0
      · subst hn; simp [natToBytesAux]
      · obtain ⟨k1, rfl⟩ : ∃ m, k = m + 1 := by
          refine ⟨k - 1, ?_⟩
          rcases Nat.eq_zero_or_pos k with h0 | h0
          · subst h0; simp at hk; omega
          · omega
        have hdiv : n / 256 < 256 ^ k1 := by
          rw [pow_succ] at hk
          exact Nat.div_lt_of_lt_mul (by omega)
        have hfuel : n / 256 ≤ f := by
          have : n / 256 < n := Nat.div_lt_self (by omega) (by omega)
          omega
        have := ih (n / 256) k1 hdiv hfuel
        unfold natToBytesAux
        rcases n with _ | n2
        · omega
        · simp only [List.length_append, List.length_cons, List.length_nil]
          omega

theorem natToBytes_length (n k : Nat) (h : n < 256 ^ k) : (natToBytes n).length ≤ k :=
  natToBytesAux_length n n k h (Nat.le_refl n)

/-- C2 (behavior at the failing input, supporting the code-bug finding):
(a) the ECDSA signer's output buffer has length exactly
`2 × ceil(curveBitSize/8)` whenever the `(r, s)` values fit the curve's bit
size (they are reduced mod the group order in `crypto/ecdsa`); but (b) the
verifier never inspects the buffer length: left-zero-padding both halves of
any even-length buffer produces a longer buffer on which Verify returns
exactly the same result — so a wrong-length buffer is not rejected, contrary
to the claim and to RFC 7518 §3.4 which the code cites. -/
theorem claim_C2_behavior :
    (∀ (e : EcdsaSigner) (r s : Nat), r < 2 ^ e.keyBitSize → s < 2 ^ e.keyBitSize →
      (e.SignWith r s).length = 2 * ecdsaKeyBytes e.keyBitSize) ∧
    (∀ (v : EcdsaVerifier) (alg : String) (data u w : List Nat), u.length = w.length →
      v.Verify alg data ((0 :: u) ++ 0 :: w) = v.Verify alg data (u ++ w)) := by
  constructor
  · intro e r s hr hs
    have hbits : e.keyBitSize ≤ 8 * ecdsaKeyBytes e.keyBitSize := by
      unfold ecdsaKeyBytes
      split <;> omega
    have hpow : 2 ^ e.keyBitSize ≤ 256 ^ ecdsaKeyBytes e.keyBitSize := by
      rw [show (256 : Nat) = 2 ^ 8 from rfl, ← pow_mul]
      exact Nat.pow_le_pow_right (by omega) hbits
    have hrl : (natToBytes r).length ≤ ecdsaKeyBytes e.keyBitSize :=
      natToBytes_length r _ (by omega)
    have hsl : (natToBytes s).length ≤ ecdsaKeyBytes e.keyBitSize :=
      natToBytes_length s _ (by omega)
    unfold EcdsaSigner.SignWith
    simp only [List.length_append, List.length_replicate]
    omega
  · intro v alg data u w h
    unfold EcdsaVerifier.Verify
    by_cases ha : alg ≠ v.alg
    · simp [ha]
    · simp only [ha, if_false]
      have l1 : ((0 :: u) ++ 0 :: w).length / 2 = u.length + 1 := by
        simp only [List.length_append, List.length_cons, h]
        omega
      have l2 : (u ++ w).length / 2 = u.length := by
        simp only [List.length_append, h]
        omega
      simp only [l1, l2]
      rw [show u.length + 1 = (0 :: u).length from by simp]
      rw [List.take_left, List.drop_left]
      rw [show (u ++ w).take u.length = u from List.take_left u w]
      rw [show (u ++ w).drop u.length = w from List.drop_left u w]
      rw [bytesToNat_cons_zero, bytesToNat_cons_zero]

def sC2 : EcdsaSigner := ⟨"ES256", ⟨⟨5, 2, 3, 1, 1, 5, 256⟩, 1⟩, sha256, 256⟩

theorem claim_C2_behavior_witness :
    (sC2.SignWith 1 1).length = 2 * ecdsaKeyBytes sC2.keyBitSize ∧
      vC1ec.Verify "ES256" [7] ((0 :: [1]) ++ 0 :: [2])
        = vC1ec.Verify "ES256" [7] ([1] ++ [2]) :=
  ⟨claim_C2_behavior.1 sC2 1 1 (by decide) (by decide),
   claim_C2_behavior.2 vC1ec "ES256" [7] [1] [2] (by decide)⟩

/-- C4 counterexample: `Issuer("")` returns nil on a token whose claims map
does not contain `"iss"` — `GetString` maps the absent claim to `""`, which
equals the expected issuer, so absence results in a pass, contradicting the
claim. -/
def emptyTok : Token := ⟨⟨⟨"", ""⟩, [], [], [], [], []⟩, []⟩

theorem claim_C4_counterexample : Issuer "" emptyTok = none := rfl

/-- C4 amended: for Audience, NotBefore, ExpirationTime and MaxAge (any
constructor argument), a token whose claims map lacks the checked claim is
rejected with a non-nil missing-claim error; Issuer(expected) rejects such
a token exactly when `expected ≠ ""` (an absent `"iss"` reads as the empty
string).  The Signature verifier checks the envelope, not a claims-map
entry. -/
theorem claim_C4_amended (j : JWS) (c : Claims) (e a : String) (l1 l2 dur now : Int)
    (hiss : claimsGet c "iss" = none) (haud : claimsGet c "aud" = none)
    (hnbf : claimsGet c "nbf" = none) (hexp : claimsGet c "exp" = none)
    (hiat : claimsGet c "iat" = none) :
    (Issuer e ⟨j, c⟩ = none ↔ e = "") ∧
    Audience a ⟨j, c⟩ = some (.plain "token is missing aud claim") ∧
    NotBefore l1 now ⟨j, c⟩ = some (.plain "token is missing nbf") ∧
    ExpirationTime l2 now ⟨j, c⟩ = some (.plain "token is missing exp") ∧
    MaxAge dur now ⟨j, c⟩ = some (.plain "token is missing iat") := by
  refine ⟨?_, ?_, ?_, ?_, ?_⟩
  · unfold Issuer GetString
    rw [hiss]
    by_cases he : e = ""
    · subst he; simp
    · have : ¬("" : String) = e := fun h2 => he h2.symm
      simp [he, this]
  · unfold Audience GetStringSlice
    rw [haud]
    simp
  · unfold NotBefore GetTime GetInt
    rw [hnbf]
    simp
  · unfold ExpirationTime GetTime GetInt
    rw [hexp]
    simp
  · unfold MaxAge GetTime GetInt
    rw [hiat]
    simp

theorem claim_C4_amended_witness :
    (Issuer "x" emptyTok = none ↔ ("x" : String) = "") ∧
    Audience "y" emptyTok = some (.plain "token is missing aud claim") ∧
    NotBefore 0 0 emptyTok = some (.plain "token is missing nbf") ∧
    ExpirationTime 0 0 emptyTok = some (.plain "token is missing exp") ∧
    MaxAge 0 0 emptyTok = some (.plain "token is missing iat") :=
  claim_C4_amended ⟨⟨"", ""⟩, [], [], [], [], []⟩ [] "x" "y" 0 0 0 0
    rfl rfl rfl rfl rfl

/-- Flipping (all bits of) the byte at index `i`: HMAC output bytes lie
below 256, so `255 - b` is the bitwise complement, and it always differs
from `b`. -/
def flipByte (bs : List Nat) (i : Nat) : List Nat :=
  bs.set i (255 - bs.getD i 0)

theorem flipByte_ne (bs : List Nat) (i : Nat) (hi : i < bs.length) : flipByte bs i ≠ bs := by
  intro hEq
  have h1 : (flipByte bs i).getD i 0 = 255 - bs.getD i 0 := by
    unfold flipByte
    rw [List.getD_eq_getElem _ _ (by simpa using hi)]
    simp
  rw [hEq] at h1
  omega

theorem hmac_verify_ok (H : HashAlg) (secret payload : List Nat) (a : String) :
    symmetricSignatureVerify (hmacSigner H secret a) a payload (hmac H secret payload) = none := by
  simp [symmetricSignatureVerify, hmacSigner]

theorem hmac_verify_flip (H : HashAlg) (secret payload : List Nat) (a : String) (i : Nat)
    (hi : i < (hmac H secret payload).length) :
    symmetricSignatureVerify (hmacSigner H secret a) a payload
      (flipByte (hmac H secret payload) i) = some ErrInvalidSignature := by
  have hne := flipByte_ne (hmac H secret payload) i hi
  have hne2 : ¬hmac H secret payload = flipByte (hmac H secret payload) i :=
    fun h2 => hne h2.symm
  simp [symmetricSignatureVerify, hmacSigner, hne2]

/-- C6: For all payloads and all three symmetric HMAC algorithms with any
secret, Sign produces the HMAC of the payload; verifying it under the same
algorithm label and secret succeeds, and verifying a buffer with one byte
flipped fails with a non-nil error. -/
theorem claim_C6 (secret payload : List Nat) (i : Nat) :
    ((HS256 secret).sign payload = .ok (hmac sha256Alg secret payload) ∧
      symmetricSignatureVerify (HS256 secret) "HS256" payload
        (hmac sha256Alg secret payload) = none ∧
      (i < (hmac sha256Alg secret payload).length →
        symmetricSignatureVerify (HS256 secret) "HS256" payload
          (flipByte (hmac sha256Alg secret payload) i) ≠ none)) ∧
    ((HS384 secret).sign payload = .ok (hmac sha384Alg secret payload) ∧
      symmetricSignatureVerify (HS384 secret) "HS384" payload
        (hmac sha384Alg secret payload) = none ∧
      (i < (hmac sha384Alg secret payload).length →
        symmetricSignatureVerify (HS384 secret) "HS384" payload
          (flipByte (hmac sha384Alg secret payload) i) ≠ none)) ∧
    ((HS512 secret).sign payload = .ok (hmac sha512Alg secret payload) ∧
      symmetricSignatureVerify (HS512 secret) "HS512" payload
        (hmac sha512Alg secret payload) = none ∧
      (i < (hmac sha512Alg secret payload).length →
        symmetricSignatureVerify (HS512 secret) "HS512" payload
          (flipByte (hmac sha512Alg secret payload) i) ≠ none)) := by
  refine ⟨⟨rfl, hmac_verify_ok _ _ _ _, fun hi => ?_⟩,
    ⟨rfl, hmac_verify_ok _ _ _ _, fun hi => ?_⟩,
    ⟨rfl, hmac_verify_ok _ _ _ _, fun hi => ?_⟩⟩ <;>
    simp [show HS256 secret = hmacSigner sha256Alg secret "HS256" from rfl,
      show HS384 secret = hmacSigner sha384Alg secret "HS384" from rfl,
      show HS512 secret = hmacSigner sha512Alg secret "HS512" from rfl,
      hmac_verify_flip _ _ _ _ _ hi]

theorem claim_C6_witness :
    symmetricSignatureVerify (HS256 [115]) "HS256" [104]
        (hmac sha256Alg [115] [104]) = none ∧
      symmetricSignatureVerify (HS256 [115]) "HS256" [104]
        (flipByte (hmac sha256Alg [115] [104]) 0) ≠ none :=
  ⟨(claim_C6 [115] [104] 0).1.2.1, (claim_C6 [115] [104] 0).1.2.2 (by decide)⟩

/-- C7: decoding a key whose `kty` reads as a string other than `EC`, `RSA`
or `oct` yields the explicit unsupported-kty error (and no key value, by the
`Except` shape); and a Set decode fails whole when any element of its
`keys` array fails to decode. -/
theorem claim_C7 :
    (∀ (data : List Nat) (j : Json) (s : String), jsonParse data = some j →
      ktyOf j = .ok s → s ∉ (["EC", "RSA", "oct"] : List String) →
      UnmarshalKey data = .error (.plain ("unsupported kty: " ++ s))) ∧
    (∀ ks : List Json, (∃ k ∈ ks, ∃ er, unmarshalKeyVal k = .error er) →
      ∃ er2, decodeKeyList ks = .error er2) ∧
    (∀ (ms : List (String × Json)) (ks : List Json), jsonField ms "keys" = some (.arr ks) →
      (∃ k ∈ ks, ∃ er, unmarshalKeyVal k = .error er) →
      ∃ er2, setUnmarshalVal (.obj ms) = .error er2) := by
  have hone : ∀ (j : Json) (s : String), ktyOf j = .ok s →
      s ∉ (["EC", "RSA", "oct"] : List String) →
      unmarshalKeyVal j = .error (.plain ("unsupported kty: " ++ s)) := by
    intro j s hk hs
    have h1 : ¬(s = "EC") := by intro h; subst h; simp at hs
    have h2 : ¬(s = "RSA") := by intro h; subst h; simp at hs
    have h3 : ¬(s = "oct") := by intro h; subst h; simp at hs
    unfold unmarshalKeyVal
    rw [hk]
    simp [h1, h2, h3]
  have htwo : ∀ ks : List Json, (∃ k ∈ ks, ∃ er, unmarshalKeyVal k = .error er) →
      ∃ er2, decodeKeyList ks = .error er2 := by
    intro ks
    induction ks with
    | nil => rintro ⟨k, hk, _⟩; simp at hk
    | cons j rest ih =>
        rintro ⟨k, hmem, er, herr⟩
        unfold decodeKeyList
        cases hj : unmarshalKeyVal j with
        | error e => exact ⟨e, rfl⟩
        | ok k2 =>
            rcases List.mem_cons.mp hmem with h | h
            · subst h; rw [herr] at hj; exact absurd hj (by simp)
            · obtain ⟨er2, her2⟩ := ih ⟨k, h, er, herr⟩
              rw [her2]
              exact ⟨er2, rfl⟩
  refine ⟨?_, htwo, ?_⟩
  · intro data j s hp hk hs
    unfold UnmarshalKey
    rw [hp]
    exact hone j s hk hs
  · intro ms ks hfield hex
    obtain ⟨er2, her2⟩ := htwo ks hex
    unfold setUnmarshalVal
    simp only [hfield, her2]
    exact ⟨er2, rfl⟩

def c7Bad : Json := .obj [("kty", .str "foo")]

theorem claim_C7_witness :
    UnmarshalKey (jsonBytes c7Bad) = .error (.plain ("unsupported kty: " ++ "foo")) ∧
      (∃ er2, decodeKeyList [c7Bad] = .error er2) ∧
      (∃ er2, setUnmarshalVal (.obj [("keys", .arr [c7Bad])]) = .error er2) :=
  ⟨claim_C7.1 (jsonBytes c7Bad) c7Bad "foo" (by rfl) (by rfl) (by decide),
   claim_C7.2.1 [c7Bad] ⟨c7Bad, by simp, .plain ("unsupported kty: " ++ "foo"), by rfl⟩,
   claim_C7.2.2 [("keys", .arr [c7Bad])] [c7Bad] (by rfl)
     ⟨c7Bad, by simp, .plain ("unsupported kty: " ++ "foo"), by rfl⟩⟩

/-- The symmetric key of the repository's own marshalling test, with key
operations `["sign"]` added. -/
def c8Key : SymmetricKey := ⟨⟨"", ["sign"], "", ""⟩, [115, 51, 99, 114, 51, 116]⟩

/-- C8 (behavior at the failing input, supporting the code-bug finding):
marshalling a key with a non-empty operations list emits the member name
`"ops"` — not `"key_ops"` as the claim, RFC 7517 §4.3 and the package's own
constant `ParamKeyOps = "key_ops"` require — and unmarshalling reads the
operations back from that same `"ops"` member; no marshalled description
ever contains a `"key_ops"` member. -/
theorem claim_C8_behavior :
    symmetricKeyJson c8Key =
        .obj [("ops", .arr [.str "sign"]), ("kty", .str "oct"), ("k", .str "czNjcjN0")] ∧
      MarshalKey (.oct c8Key) =
        [123, 34, 111, 112, 115, 34, 58, 91, 34, 115, 105, 103, 110, 34, 93, 44, 34, 107,
          116, 121, 34, 58, 34, 111, 99, 116, 34, 44, 34, 107, 34, 58, 34, 99, 122, 78,
          106, 99, 106, 78, 48, 34, 125] ∧
      unmarshalKeyVal (symmetricKeyJson c8Key) = .ok (.oct c8Key) ∧
      (∀ d : KeyDescription, jsonField (descMembers d) "key_ops" = none) := by
  refine ⟨by rfl, by rfl, by rfl, ?_⟩
  intro d
  have h1 : eqFoldAscii "use" "key_ops" = false := by decide
  have h2 : eqFoldAscii "ops" "key_ops" = false := by decide
  have h3 : eqFoldAscii "alg" "key_ops" = false := by decide
  have h4 : eqFoldAscii "kid" "key_ops" = false := by decide
  unfold descMembers jsonField
  simp only [List.filter_append]
  split <;> split <;> split <;> split <;> simp [List.filter, h1, h2, h3, h4]

/-- C9: every compact string that parses as a structurally valid JWS whose
header type is not exactly "JWT" is rejected by jwt.Decode with an error
matching ErrInvalidToken, and no token is produced. -/
theorem claim_C9 (compact : List Nat) (j : JWS)
    (hp : ParseCompact compact = .ok j) (ht : j.header.typ ≠ "JWT") :
    ∃ e, Decode compact = .error e ∧ goErrorIs e ErrInvalidToken = true := by
  unfold Decode
  rw [hp]
  simp only [ht, if_pos, ne_eq, not_false_eq_true, if_true]
  exact ⟨_, rfl, goErrorIs_wrapErr _ _⟩

def jC9 : JWS := ⟨⟨"none", "X"⟩, headerEncode ⟨"none", "X"⟩, [], [], [], []⟩

theorem claim_C9_witness :
    ∃ e, Decode (headerEncode ⟨"none", "X"⟩ ++ 46 :: 46 :: []) = .error e ∧
      goErrorIs e ErrInvalidToken = true :=
  claim_C9 (headerEncode ⟨"none", "X"⟩ ++ 46 :: 46 :: []) jC9 (by rfl) (by decide)

/-- C10: a claims map carrying `nbf`/`exp`/`iat` with numeric value 0 reads
as the zero time with a nil error from GetTime, and the corresponding
verifier rejects the token with exactly the same missing-claim error it
produces when the claim is entirely absent. -/
theorem claim_C10 (j : JWS) (c c2 : Claims) (l1 l2 dur now : Int)
    (h1 : claimsGet c "nbf" = some (.num 0)) (h2 : claimsGet c "exp" = some (.num 0))
    (h3 : claimsGet c "iat" = some (.num 0))
    (g1 : claimsGet c2 "nbf" = none) (g2 : claimsGet c2 "exp" = none)
    (g3 : claimsGet c2 "iat" = none) :
    GetTime c "nbf" = .ok none ∧ GetTime c "exp" = .ok none ∧ GetTime c "iat" = .ok none ∧
    NotBefore l1 now ⟨j, c⟩ = some (.plain "token is missing nbf") ∧
    NotBefore l1 now ⟨j, c⟩ = NotBefore l1 now ⟨j, c2⟩ ∧
    ExpirationTime l2 now ⟨j, c⟩ = some (.plain "token is missing exp") ∧
    ExpirationTime l2 now ⟨j, c⟩ = ExpirationTime l2 now ⟨j, c2⟩ ∧
    MaxAge dur now ⟨j, c⟩ = some (.plain "token is missing iat") ∧
    MaxAge dur now ⟨j, c⟩ = MaxAge dur now ⟨j, c2⟩ := by
  refine ⟨?_, ?_, ?_, ?_, ?_, ?_, ?_, ?_, ?_⟩ <;>
    simp [GetTime, GetInt, NotBefore, ExpirationTime, MaxAge, h1, h2, h3, g1, g2, g3]

theorem claim_C10_witness :
    GetTime [("nbf", .num 0), ("exp", .num 0), ("iat", .num 0)] "nbf" = .ok none ∧
      NotBefore 0 5 ⟨⟨⟨"", ""⟩, [], [], [], [], []⟩,
          [("nbf", .num 0), ("exp", .num 0), ("iat", .num 0)]⟩
        = some (.plain "token is missing nbf") ∧
      NotBefore 0 5 ⟨⟨⟨"", ""⟩, [], [], [], [], []⟩,
          [("nbf", .num 0), ("exp", .num 0), ("iat", .num 0)]⟩
        = NotBefore 0 5 ⟨⟨⟨"", ""⟩, [], [], [], [], []⟩, []⟩ := by
  have h := claim_C10 ⟨⟨"", ""⟩, [], [], [], [], []⟩
    [("nbf", .num 0), ("exp", .num 0), ("iat", .num 0)] [] 0 0 0 5
    (by rfl) (by rfl) (by rfl) (by rfl) (by rfl) (by rfl)
  exact ⟨h.1, h.2.2.2.1, h.2.2.2.2.1⟩
